import Mathlib

/-!
Verification of the durable tabular store of the bingo bot repository.

The Python source (src/unnamed/part_000 and src/bot_nube.py) is shallowly
embedded: pandas DataFrames become lists of typed rows, Python sets become
insertion lists with a membership test, strings are manipulated through
their character lists so that every definition is structural and
executable, and the I/O performed by the journal / snapshot helpers is
modelled through explicit success oracles and effect traces.
-/

namespace Bingo

/-! ## Character and string primitives (Python `str` helpers, ASCII model) -/

/-- ASCII decimal digit, modelling Python `str.isdigit` character test. -/
def isPyDigit (c : Char) : Bool := '0' ≤ c && c ≤ '9'

/-- Whitespace characters stripped by Python `str.strip()` (ASCII range). -/
def isPySpace (c : Char) : Bool :=
  c = ' ' || c = '\t' || c = '\n' || c = '\r' || c = Char.ofNat 11 || c = Char.ofNat 12

/-- Python `str.strip()` on a character list. -/
def pyStrip (cs : List Char) : List Char :=
  ((cs.dropWhile isPySpace).reverse.dropWhile isPySpace).reverse

/-- Comma test for Python `str.strip(",")`. -/
def isComma (c : Char) : Bool := c = ','

/-- Python `str.strip(",")` : drop commas from both ends. -/
def stripCommas (cs : List Char) : List Char :=
  ((cs.dropWhile isComma).reverse.dropWhile isComma).reverse

/-- Python `str.split(";")` : split on every semicolon, keeping empty parts. -/
def splitSemi : List Char → List Char → List (List Char)
  | [], acc => [acc.reverse]
  | c :: cs, acc =>
    if c = ';' then acc.reverse :: splitSemi cs [] else splitSemi cs (c :: acc)

/-- Numeric value of a digit string. -/
def digitsVal (cs : List Char) : Nat :=
  cs.foldl (fun a c => a * 10 + (c.toNat - '0'.toNat)) 0

/-- Nonempty and all ASCII digits: Python `str.isdigit` (ASCII model). -/
def allDigits (cs : List Char) : Bool := !cs.isEmpty && cs.all isPyDigit

/-- Python `int(s)` on an already-stripped token: optional sign then digits. -/
def pyInt? (cs : List Char) : Option Int :=
  match cs with
  | '-' :: rest => if allDigits rest then some (-(digitsVal rest : Int)) else none
  | '+' :: rest => if allDigits rest then some (digitsVal rest : Int) else none
  | _ => if allDigits cs then some (digitsVal cs : Int) else none

/-! ## Record schema: rows of the four tables -/

/-- One row of `reg_df` (the Sales table `registro.csv`). -/
structure RegRow where
  usuario_id : Int
  nombre_usuario : String
  imagen : Int
  devuelto_por : String
deriving DecidableEq

/-- One row of `devs_df` (the Returns table `devoluciones.csv`). -/
structure DevRow where
  usuario_id : Int
  nombre_usuario : String
  imagen : Int
  devuelto_por : String
  fecha : String
deriving DecidableEq

/-- One row of `lotes_df` (the Assignment table `lotes.csv`). -/
structure LoteRow where
  nombre_usuario : String
  carton : Int
deriving DecidableEq

/-- The in-memory tables owned by the `Store` object relevant to the claims. -/
structure BotState where
  reg : List RegRow
  devs : List DevRow
  lotes : List LoteRow
deriving DecidableEq

/-! ## Journal line format (`parse_log_line`) -/

/-- A parsed journal event, the dict returned by `parse_log_line`. -/
structure LogEvent where
  tipo : String
  usuario_id : Int
  nombre_usuario : String
  imagen : Int
  ts : String
  extra : String
deriving DecidableEq

/-- `parse_log_line`: strip the line, split on `;`, strip every part, require
at least five parts, event type `venta` or `devol`, integer id and ticket;
otherwise `none` (the caller skips the line). -/
def parse_log_line (line : String) : Option LogEvent :=
  let parts := (splitSemi (pyStrip line.data) []).map pyStrip
  match parts with
  | tipo :: uid_s :: nombre :: imagen_s :: ts :: rest =>
    if tipo = "venta".data || tipo = "devol".data then
      match pyInt? uid_s, pyInt? imagen_s with
      | some uid, some imagen =>
        some { tipo := String.mk tipo, usuario_id := uid,
               nombre_usuario := String.mk nombre, imagen := imagen,
               ts := String.mk ts,
               extra := String.mk (match rest with | e :: _ => e | [] => []) }
      | _, _ => none
    else none
  | _ => none

/-- The loop in `reconcile_from_logs_sync` that reads one journal file:
skip blank lines, parse, keep events of the requested type. -/
def collectEvents (tipo : String) (lines : List String) : List LogEvent :=
  lines.filterMap fun l =>
    if String.mk (pyStrip l.data) = "" then none
    else match parse_log_line l with
      | some e => if e.tipo = tipo then some e else none
      | none => none

/-! ## Reconciliation (`reconcile_from_logs_sync`) -/

/-- The natural key `(usuario_id, nombre_usuario, imagen)` of a Sales row. -/
def regKey (r : RegRow) : Int × String × Int :=
  (r.usuario_id, r.nombre_usuario, r.imagen)

/-- The natural key of a journal event. -/
def evKey (e : LogEvent) : Int × String × Int :=
  (e.usuario_id, e.nombre_usuario, e.imagen)

/-- The Sales row a recovered `venta` event inserts (`devuelto_por` empty). -/
def evRow (e : LogEvent) : RegRow :=
  { usuario_id := e.usuario_id, nombre_usuario := e.nombre_usuario,
    imagen := e.imagen, devuelto_por := "" }

/-- The `venta` merge loop: walk the events, keep a set `existing` of keys,
append a new row for each event whose key is not yet present. -/
def newSaleRows : List LogEvent → List (Int × String × Int) → List RegRow
  | [], _ => []
  | v :: vs, existing =>
    if evKey v ∈ existing then newSaleRows vs existing
    else evRow v :: newSaleRows vs (evKey v :: existing)

/-- `reg_df` after merging the `venta` events (idempotent union). -/
def mergeVentas (ventas : List LogEvent) (reg : List RegRow) : List RegRow :=
  reg ++ newSaleRows ventas (reg.map regKey)

/-- The boolean mask of one `devol` event against one Sales row. -/
def devMatches (d : LogEvent) (r : RegRow) : Bool :=
  r.usuario_id == d.usuario_id && r.nombre_usuario == d.nombre_usuario &&
    r.imagen == d.imagen

/-- The Returns row appended for a replayed `devol` event. -/
def devRow (d : LogEvent) : DevRow :=
  { usuario_id := d.usuario_id, nombre_usuario := d.nombre_usuario,
    imagen := d.imagen, devuelto_por := d.extra, fecha := d.ts }

/-- The `dev_rows` list: one Returns row per `devol` event whose mask matches
at least one row of the (post-venta-merge) Sales table. -/
def devRowsOf (devols : List LogEvent) (reg : List RegRow) : List DevRow :=
  devols.filterMap fun d =>
    if reg.any (devMatches d) then some (devRow d) else none

/-- `reconcile_from_logs_sync` as a pure state transformer on the in-memory
tables: collect the `venta` events from the ventas log and the `devol`
events from the devoluciones log, union the ventas into the Sales table,
then remove every Sales row matched by some `devol` event and append the
corresponding Returns rows.  (In the source the CSV rewrites of the merged
tables happen here as well; the emptiness guards around them do not change
the in-memory result.) -/
def reconcile_from_logs (vlines dlines : List String)
    (reg : List RegRow) (devs : List DevRow) : List RegRow × List DevRow :=
  let ventas := collectEvents "venta" vlines
  let devols := collectEvents "devol" dlines
  let reg1 := mergeVentas ventas reg
  let reg2 := reg1.filter fun r => !(devols.any (devMatches · r))
  (reg2, devs ++ devRowsOf devols reg1)

/-- The log messages `reconcile_from_logs_sync` emits.  In the source the
only logger calls in its body are the three `logger.warning` in `except`
blocks around its `atomic_write_csv` calls; `okVentas`/`okPost`/`okDevs`
say whether each of those writes succeeds.  No message about skipped or
malformed lines exists anywhere in the function. -/
def reconcile_warnings (vlines dlines : List String)
    (reg : List RegRow)
    (okVentas okPost okDevs : Bool) : List String :=
  let ventas := collectEvents "venta" vlines
  let devols := collectEvents "devol" dlines
  let reg1 := mergeVentas ventas reg
  (if !(newSaleRows ventas (reg.map regKey)).isEmpty && !okVentas then
    ["No se pudo guardar registro.csv en reconciliacion"] else []) ++
  (if reg1.any (fun r => devols.any (devMatches · r)) && !okPost then
    ["No se pudo guardar registro.csv (post-devol)"] else []) ++
  (if !(devRowsOf devols reg1).isEmpty && !okDevs then
    ["No se pudo guardar devoluciones.csv"] else [])

/-! ## The two number/range parsers (`parse_numeros`) -/

/-- Python set of ints, modelled as an insertion list without duplicates. -/
def insertNum (n : Int) (acc : List Int) : List Int :=
  if n ∈ acc then acc else acc ++ [n]

/-- Python `range(a, b + 1)` over integers (empty when `b < a`). -/
def rangeList (a b : Int) : List Int :=
  (List.range (b + 1 - a).toNat).map fun i => a + (i : Int)

/-- Add every element of a range to the set. -/
def insertAll (ns : List Int) (acc : List Int) : List Int :=
  ns.foldl (fun a n => insertNum n a) acc

/-- Insertion sort step, used to model Python `sorted`. -/
def insertSorted (n : Int) : List Int → List Int
  | [] => [n]
  | m :: ms => if n ≤ m then n :: m :: ms else m :: insertSorted n ms

/-- Python `sorted` on a list of ints. -/
def sortInts (l : List Int) : List Int := l.foldr insertSorted []

/-- The regex `^\d+-\d+$` of `parse_numeros` in src/unnamed/part_000:
a nonempty digit run, a hyphen, a nonempty digit run, end of token.
Returns the two group values. -/
def p0Range? (cs : List Char) : Option (Int × Int) :=
  let as := cs.takeWhile isPyDigit
  let rest := cs.dropWhile isPyDigit
  if rest.head? = some '-' then
    let bs := rest.tail.takeWhile isPyDigit
    if !as.isEmpty && !bs.isEmpty && (rest.tail.dropWhile isPyDigit).isEmpty then
      some ((digitsVal as : Int), (digitsVal bs : Int))
    else none
  else none

/-- The token loop of `parse_numeros` from src/unnamed/part_000. -/
def parseGo : List String → List Int → Option (List Int)
  | [], acc => some acc
  | t :: ts, acc =>
    match p0Range? t.data with
    | some (a, b) =>
      if a ≤ b then parseGo ts (insertAll (rangeList a b) acc) else parseGo ts acc
    | none =>
      if allDigits t.data then parseGo ts (insertNum (digitsVal t.data : Int) acc)
      else none

/-- `parse_numeros` from src/unnamed/part_000: a token matching `^\d+-\d+$`
contributes `range(a, b+1)` when `a ≤ b` (and nothing otherwise), a pure
digit token contributes its value, and any other token makes the whole
call return `None`. -/
def parse_numeros (tokens : List String) : Option (List Int) :=
  parseGo tokens []

/-- The regex `RANGE_RE = ^\s*(\d+)\s*-\s*(\d+)\s*$` of src/bot_nube.py. -/
def bnRange? (cs : List Char) : Option (Int × Int) :=
  let t1 := cs.dropWhile isPySpace
  let as := t1.takeWhile isPyDigit
  let rest := (t1.dropWhile isPyDigit).dropWhile isPySpace
  if rest.head? = some '-' then
    let t2 := rest.tail.dropWhile isPySpace
    let bs := t2.takeWhile isPyDigit
    if !as.isEmpty && !bs.isEmpty &&
        ((t2.dropWhile isPyDigit).dropWhile isPySpace).isEmpty then
      some ((digitsVal as : Int), (digitsVal bs : Int))
    else none
  else none

/-- `parse_numeros` from src/bot_nube.py: strip whitespace then commas from
the token, skip empties; a range token contributes the ascending closed
interval between its two bounds whatever their order; a digit token its
value; any other token is reduced to its digit characters and contributes
their value when some digit remains.  The set is returned sorted. -/
def parseNubeGo : List String → List Int → List Int
  | [], acc => acc
  | t :: ts, acc =>
    let p := stripCommas (pyStrip t.data)
    if p.isEmpty then parseNubeGo ts acc
    else match bnRange? p with
      | some (a, b) =>
        if a ≤ b then parseNubeGo ts (insertAll (rangeList a b) acc)
        else parseNubeGo ts (insertAll (rangeList b a) acc)
      | none =>
        if allDigits p then parseNubeGo ts (insertNum (digitsVal p : Int) acc)
        else
          let base := p.filter isPyDigit
          if allDigits base then parseNubeGo ts (insertNum (digitsVal base : Int) acc)
          else parseNubeGo ts acc

/-- `parse_numeros` from src/bot_nube.py (see the token loop above): the
accumulated set is returned sorted. -/
def parse_numeros_nube (tokens : List String) : List Int :=
  sortInts (parseNubeGo tokens [])

/-! ## Store operations -/

/-- `canon`: strip and casefold a display name (ASCII lowering model). -/
def canon (s : String) : String :=
  String.mk ((pyStrip s.data).map Char.toLower)

/-- `owner_by_num.get(n)` where `owner_by_num` is the dict comprehension over
the lotes rows: a later row for the same carton overwrites an earlier one,
so the last matching row wins. -/
def lookupOwner (lotes : List LoteRow) (n : Int) : Option String :=
  (lotes.reverse.find? fun r => r.carton == n).map fun r => r.nombre_usuario

/-- The first lotes row for a carton, used by `handle_message` to display
the owner of a blocked number. -/
def displayOwner (lotes : List LoteRow) (n : Int) : String :=
  match lotes.find? fun r => r.carton == n with
  | some r => r.nombre_usuario
  | none => "otro"

/-- `my_lote`: the cartons assigned (case-insensitively) to a user. -/
def myLote (lotes : List LoteRow) (name : String) : List Int :=
  (lotes.filter fun r => canon r.nombre_usuario = canon name).map fun r => r.carton

/-- The global set of sold tickets, `reg_df["imagen"]`. -/
def soldTickets (reg : List RegRow) : List Int := reg.map fun r => r.imagen

/-- The in-range test of `/vendido`: no range defined means no check. -/
def rangePass (rango : Option (Int × Int)) (n : Int) : Bool :=
  match rango with
  | none => true
  | some (inicio, fin) => inicio ≤ n && n ≤ fin

/-- The five outcome buckets computed by `vendido_cmd`. -/
structure VendidoOut where
  permitidos : List Int
  ya_vendidos : List Int
  de_otro : List (Int × String)
  fuera_lote : List Int
  fuera_rango : List Int
deriving DecidableEq

/-- The classification loop of `vendido_cmd` over `sorted(numeros)`:
out-of-range first, then already sold, then assigned to another owner,
then outside the target's own lot, otherwise permitted. -/
def vendidoGo (reg : List RegRow) (lotes : List LoteRow)
    (rango : Option (Int × Int)) (targetName : String)
    (tieneLote : Bool) : List Int → VendidoOut
  | [] => ⟨[], [], [], [], []⟩
  | n :: ns =>
    let rest := vendidoGo reg lotes rango targetName tieneLote ns
    if !rangePass rango n then
      { rest with fuera_rango := n :: rest.fuera_rango }
    else if n ∈ soldTickets reg then
      { rest with ya_vendidos := n :: rest.ya_vendidos }
    else
      match lookupOwner lotes n with
      | some owner =>
        if canon owner ≠ canon targetName then
          { rest with de_otro := (n, owner) :: rest.de_otro }
        else { rest with permitidos := n :: rest.permitidos }
      | none =>
        if tieneLote then { rest with fuera_lote := n :: rest.fuera_lote }
        else { rest with permitidos := n :: rest.permitidos }

/-- The checks of `vendido_cmd` on the sorted request numbers (range check
active only when a range is defined, lot check active only when the
target has a lot of their own). -/
def vendidoClassify (reg : List RegRow) (lotes : List LoteRow)
    (rango : Option (Int × Int)) (targetName : String)
    (numeros : List Int) : VendidoOut :=
  vendidoGo reg lotes rango targetName (!(myLote lotes targetName).isEmpty)
    (sortInts numeros)

/-- The outcome buckets of the number-request path of `handle_message`. -/
structure PedidoOut where
  permitidos : List Int
  bloqueados_otro : List (Int × String)
  fuera_de_mi_lote : List Int
deriving DecidableEq

/-- The assignment filter of `handle_message`: a number assigned to me is
permitted, one assigned to someone else is blocked, an unassigned one is
permitted only when I have no lot of my own. -/
def pedidoGo (lotes : List LoteRow) (miNombre : String)
    (tieneLote : Bool) : List Int → PedidoOut
  | [] => ⟨[], [], []⟩
  | n :: ns =>
    let rest := pedidoGo lotes miNombre tieneLote ns
    match lookupOwner lotes n with
    | some owner =>
      if canon owner = canon miNombre then
        { rest with permitidos := n :: rest.permitidos }
      else { rest with bloqueados_otro := (n, displayOwner lotes n) :: rest.bloqueados_otro }
    | none =>
      if tieneLote then { rest with fuera_de_mi_lote := n :: rest.fuera_de_mi_lote }
      else { rest with permitidos := n :: rest.permitidos }

/-- The request classification of `handle_message` on the sorted numbers. -/
def pedidoClassify (lotes : List LoteRow) (miNombre : String)
    (numeros : List Int) : PedidoOut :=
  pedidoGo lotes miNombre (!(myLote lotes miNombre).isEmpty) (sortInts numeros)

/-- `a_enviar`: the permitted numbers not already sent to this user and not
sold globally. -/
def aEnviar (reg : List RegRow) (uid : Int) (permitidos : List Int) : List Int :=
  let enviadosUsuario := (reg.filter fun r => r.usuario_id == uid).map fun r => r.imagen
  (sortInts permitidos).filter fun n =>
    !(enviadosUsuario.contains n) && !(soldTickets reg).contains n

/-! ## Effect traces of the mutating commands (write-ahead discipline) -/

/-- File name constants of the source. -/
def VENTAS_LOG : String := "ventas.log"

def DEVOL_LOG : String := "devoluciones.log"

def CSV_FILE : String := "registro.csv"

def DEVOLUCIONES_FILE : String := "devoluciones.csv"

/-- The journal line written for one sale. -/
def ventaLine (uid : Int) (name : String) (n : Int) (ts : String) : String :=
  "venta;" ++ toString uid ++ ";" ++ name ++ ";" ++ toString n ++ ";" ++ ts

/-- The journal line written for one return. -/
def devolLine (uid : Int) (name : String) (n : Int) (ts userName : String) : String :=
  "devol;" ++ toString uid ++ ";" ++ name ++ ";" ++ toString n ++ ";" ++ ts ++ ";" ++ userName

/-- One primitive effect of a mutating command, in program order: a durable
journal append (`append_log_line`, which can fail), an in-memory table
mutation under the table lock, an outbound media send, or a snapshot
rewrite request. -/
inductive Eff where
  | appendLog (path line : String)
  | setReg (f : List RegRow → List RegRow)
  | setDevs (f : List DevRow → List DevRow)
  | sendMedia
  | saveCsv (path : String)

/-- Whether an effect is a journal append. -/
def Eff.isAppend : Eff → Bool
  | .appendLog _ _ => true
  | _ => false

/-- Whether an effect mutates an in-memory table. -/
def Eff.isMutate : Eff → Bool
  | .setReg _ => true
  | .setDevs _ => true
  | _ => false

/-- Run an effect list against the in-memory state.  `jOk k` tells whether
the `k`-th journal append of the run succeeds; a failing append raises
after its internal retries, so execution stops there (the remaining
effects never happen).  Media sends and snapshot writes do not change the
in-memory tables.  Returns the final state, the next append index, and
whether the run completed without a journal failure. -/
def runEffs (jOk : Nat → Bool) : List Eff → Nat → BotState → BotState × Nat × Bool
  | [], k, st => (st, k, true)
  | .appendLog _ _ :: rest, k, st =>
    if jOk k then runEffs jOk rest (k + 1) st else (st, k, false)
  | .setReg f :: rest, k, st => runEffs jOk rest k { st with reg := f st.reg }
  | .setDevs f :: rest, k, st => runEffs jOk rest k { st with devs := f st.devs }
  | .sendMedia :: rest, k, st => runEffs jOk rest k st
  | .saveCsv _ :: rest, k, st => runEffs jOk rest k st

/-- The effect sequence of the mutation section of `vendido_cmd`: when some
numbers are permitted, append one `venta` journal line per number, then
extend `reg_df`, then save the snapshot. -/
def vendido_effects (st : BotState) (rango : Option (Int × Int))
    (targetUid : Int) (targetName : String) (numeros : List Int)
    (ts : String) : List Eff :=
  let c := vendidoClassify st.reg st.lotes rango targetName numeros
  if c.permitidos.isEmpty then []
  else
    (c.permitidos.map fun n => Eff.appendLog VENTAS_LOG (ventaLine targetUid targetName n ts)) ++
    [Eff.setReg fun rg =>
        rg ++ c.permitidos.map fun n =>
          { usuario_id := targetUid, nombre_usuario := targetName,
            imagen := n, devuelto_por := "" },
     Eff.saveCsv CSV_FILE]

/-- The effect sequence of the sale section of `handle_message`: for the
numbers to send whose card image exists, append one `venta` journal line
per number, send the media group, then extend `reg_df` and save. -/
def handle_effects (st : BotState) (uid : Int) (miNombre : String)
    (numeros : List Int) (ts : String) (imgExists : Int → Bool) : List Eff :=
  let p := pedidoClassify st.lotes miNombre numeros
  let okNums := (aEnviar st.reg uid p.permitidos).filter imgExists
  if okNums.isEmpty then []
  else
    (okNums.map fun n => Eff.appendLog VENTAS_LOG (ventaLine uid miNombre n ts)) ++
    [Eff.sendMedia,
     Eff.setReg fun rg =>
        rg ++ okNums.map fun n =>
          { usuario_id := uid, nombre_usuario := miNombre,
            imagen := n, devuelto_por := "" },
     Eff.saveCsv CSV_FILE]

/-- The rows of `reg_df` a return by user `uid` of `numeros` matches. -/
def removerMatching (reg : List RegRow) (uid : Int) (numeros : List Int) : List RegRow :=
  reg.filter fun r => r.usuario_id == uid && numeros.contains r.imagen

/-- The effect sequence of `remover_carton`: when the user owns some of the
numbers, append one `devol` journal line per matched row, then drop the
matched rows from `reg_df`, append the Returns rows to `devs_df`, and save
both snapshots. -/
def remover_effects (st : BotState) (uid : Int) (userName : String)
    (numeros : List Int) (ts : String) : List Eff :=
  let matching := removerMatching st.reg uid numeros
  if matching.isEmpty then []
  else
    (matching.map fun r =>
      Eff.appendLog DEVOL_LOG (devolLine r.usuario_id r.nombre_usuario r.imagen ts userName)) ++
    [Eff.setReg fun rg =>
        rg.filter fun r => !(r.usuario_id == uid && numeros.contains r.imagen),
     Eff.setDevs fun ds =>
        ds ++ matching.map fun r =>
          { usuario_id := r.usuario_id, nombre_usuario := r.nombre_usuario,
            imagen := r.imagen, devuelto_por := userName, fecha := ts },
     Eff.saveCsv CSV_FILE, Eff.saveCsv DEVOLUCIONES_FILE]

/-- `vendido_cmd` as a state transformer (journal appends succeeding). -/
def vendidoRun (st : BotState) (rango : Option (Int × Int)) (targetUid : Int)
    (targetName : String) (numeros : List Int) (ts : String) : BotState :=
  (runEffs (fun _ => true) (vendido_effects st rango targetUid targetName numeros ts) 0 st).1

/-- The sale path of `handle_message` as a state transformer. -/
def handleRun (st : BotState) (uid : Int) (miNombre : String)
    (numeros : List Int) (ts : String) (imgExists : Int → Bool) : BotState :=
  (runEffs (fun _ => true) (handle_effects st uid miNombre numeros ts imgExists) 0 st).1

/-- `remover_carton` as a state transformer. -/
def removerRun (st : BotState) (uid : Int) (userName : String)
    (numeros : List Int) (ts : String) : BotState :=
  (runEffs (fun _ => true) (remover_effects st uid userName numeros ts) 0 st).1

/-! ## Assignment (`comando_lote`) -/

/-- The three outcome buckets of `/lote`. -/
structure LoteOut where
  nuevos : List Int
  ya_mios : List Int
  conflictos : List (Int × String)
deriving DecidableEq

/-- The partition loop of `comando_lote` over `sorted(numeros)`. -/
def loteGo (lotes : List LoteRow) (rawName : String) : List Int → LoteOut
  | [] => ⟨[], [], []⟩
  | n :: ns =>
    let rest := loteGo lotes rawName ns
    match lookupOwner lotes n with
    | none => { rest with nuevos := n :: rest.nuevos }
    | some owner =>
      if canon owner = canon rawName then
        { rest with ya_mios := n :: rest.ya_mios }
      else { rest with conflictos := (n, owner) :: rest.conflictos }

/-- The classification of `/lote` numbers against the current lotes table. -/
def loteClassify (lotes : List LoteRow) (rawName : String)
    (numeros : List Int) : LoteOut :=
  loteGo lotes rawName (sortInts numeros)

/-- `comando_lote`: classify the numbers against the current lotes table and
append a row for each genuinely new number; on no new number the table is
left as it was. -/
def comando_lote (st : BotState) (rawName : String)
    (numeros : List Int) : BotState × LoteOut :=
  let out := loteClassify st.lotes rawName numeros
  let lotes2 :=
    if out.nuevos.isEmpty then st.lotes
    else st.lotes ++ out.nuevos.map fun n => LoteRow.mk rawName n
  ({ st with lotes := lotes2 }, out)

/-! ## Snapshot writer (`atomic_write_csv`) and journal append (`append_log_line`) -/

/-- The filesystem as the snapshot writer sees it: the content of the target
path (if the file exists) and the identifiers of the live temporary files. -/
structure FsState (α : Type) where
  target : Option α
  tmps : List Nat
deriving DecidableEq

/-- One observable filesystem/timing action of `atomic_write_csv`:
`mkTmp` is the `tempfile.mkstemp` call of one attempt, `serializeOk` /
`serializeFail` the full `df.to_csv` + flush + fsync of the whole table
into that temp, `renameOk` / `renameFail` the `os.replace` over the
target, and `removeTmp` / `removeFailed` the best-effort `os.remove` of
the `finally` block, whose own failure the source swallows with
`except Exception: pass`. -/
inductive FsOp where
  | mkTmp (i : Nat)
  | serializeOk (i : Nat)
  | serializeFail (i : Nat)
  | renameOk (i : Nat)
  | renameFail (i : Nat)
  | removeTmp (i : Nat)
  | removeFailed (i : Nat)
  | sleepMs (ms : Nat)
deriving DecidableEq

/-- The retry loop of `atomic_write_csv`.  Attempt `i` creates temporary
file `i`, serializes the whole table into it (`wOk i` tells whether that
write succeeds; a failure raises, the `finally` attempts to remove the
temp, and the exception propagates out of the loop), then calls
`os.replace` (`rOk i`); an atomic rename success installs the content and
consumes the temp (the `finally` then sees no file and removes nothing),
while a `PermissionError` sleeps `base*(i+1)` ms, lets the `finally`
attempt the deletion, and moves to the next attempt.  The `finally`
deletion is best-effort: the `os.remove` sits inside
`try: ... except Exception: pass`, so when it fails (`remOk i = false`)
the temporary file silently survives.  Exhausting the loop raises the
last rename error.  Returns the filesystem, the action trace, and whether
the call returned without raising. -/
def awcAux {α : Type} (wOk rOk remOk : Nat → Bool) (df : α) (base : Nat) :
    Nat → Nat → FsState α → FsState α × List FsOp × Bool
  | _, 0, fs => (fs, [], false)
  | i, rem + 1, fs =>
    let fsW : FsState α := { fs with tmps := fs.tmps ++ [i] }
    let fsD : FsState α :=
      if remOk i then { fsW with tmps := fsW.tmps.filter (· ≠ i) } else fsW
    let remOp : FsOp := if remOk i then .removeTmp i else .removeFailed i
    if wOk i then
      if rOk i then
        ({ target := some df, tmps := fsW.tmps.filter (· ≠ i) },
         [.mkTmp i, .serializeOk i, .renameOk i], true)
      else
        let next := awcAux wOk rOk remOk df base (i + 1) rem fsD
        (next.1,
         [.mkTmp i, .serializeOk i, .renameFail i, .sleepMs (base * (i + 1)), remOp]
           ++ next.2.1,
         next.2.2)
    else
      (fsD, [.mkTmp i, .serializeFail i, remOp], false)

/-- `atomic_write_csv` with explicit per-attempt oracles.  With `retries = 0`
the loop body never runs and the function returns without raising, leaving
the target untouched (the source only raises when a rename error was
recorded). -/
def atomic_write_csv {α : Type} (wOk rOk remOk : Nat → Bool) (df : α)
    (retries base : Nat) (fs : FsState α) : FsState α × List FsOp × Bool :=
  if retries = 0 then (fs, [], true)
  else awcAux wOk rOk remOk df base 0 retries fs

/-- One observable action of `append_log_line`. -/
inductive IOOp where
  | attempt (i : Nat) (ok : Bool)
  | sleepMs (ms : Nat)
deriving DecidableEq

/-- The retry loop of `append_log_line`: attempt `i` opens the journal for
append, writes the line, flushes and fsyncs (`ok i` tells whether that
succeeds); a `PermissionError` sleeps `base*(i+1)` ms and retries;
exhausting the loop raises the last error. -/
def appendAux (ok : Nat → Bool) (base : Nat) :
    Nat → Nat → List IOOp × Bool
  | _, 0 => ([], false)
  | i, rem + 1 =>
    if ok i then ([.attempt i true], true)
    else
      let next := appendAux ok base (i + 1) rem
      ([.attempt i false, .sleepMs (base * (i + 1))] ++ next.1, next.2)

/-- `append_log_line` with an explicit per-attempt oracle (with `retries = 0`
the source returns without raising and without writing). -/
def append_log_line (ok : Nat → Bool) (retries base : Nat) : List IOOp × Bool :=
  if retries = 0 then ([], true)
  else appendAux ok base 0 retries

/-! ## Trace observations used by the retry claims -/

/-- Number of append attempts performed by `append_log_line`. -/
def countAttempts (tr : List IOOp) : Nat :=
  tr.countP fun op => match op with | .attempt _ _ => true | _ => false

/-- The sleep durations (ms) of an `append_log_line` run, in order. -/
def ioSleeps (tr : List IOOp) : List Nat :=
  tr.filterMap fun op => match op with | .sleepMs d => some d | _ => none

/-- The indices of the failed attempts of an `append_log_line` run. -/
def ioFailedIdxs (tr : List IOOp) : List Nat :=
  tr.filterMap fun op => match op with | .attempt i false => some i | _ => none

/-- Number of temporary files created by an `atomic_write_csv` run, which is
also the number of attempts and of whole-table serializations started. -/
def countMkTmp (tr : List FsOp) : Nat :=
  tr.countP fun op => match op with | .mkTmp _ => true | _ => false

/-- Number of completed whole-table serializations of an `atomic_write_csv`
run. -/
def countSerializeOk (tr : List FsOp) : Nat :=
  tr.countP fun op => match op with | .serializeOk _ => true | _ => false

/-- The sleep durations (ms) of an `atomic_write_csv` run, in order. -/
def fsSleeps (tr : List FsOp) : List Nat :=
  tr.filterMap fun op => match op with | .sleepMs d => some d | _ => none

/-- The indices of the failed rename attempts of an `atomic_write_csv` run. -/
def renameFailIdxs (tr : List FsOp) : List Nat :=
  tr.filterMap fun op => match op with | .renameFail i => some i | _ => none

/-! ## Lemmas on the snapshot writer -/

theorem awcAux_target {α : Type} (wOk rOk remOk : Nat → Bool) (df : α) (base : Nat) :
    ∀ (rem i : Nat) (fs : FsState α),
      ((awcAux wOk rOk remOk df base i rem fs).2.2 = false →
        (awcAux wOk rOk remOk df base i rem fs).1.target = fs.target) ∧
      ((awcAux wOk rOk remOk df base i rem fs).2.2 = true →
        (awcAux wOk rOk remOk df base i rem fs).1.target = some df) := by
  intro rem
  induction rem with
  | zero => intro i fs; simp [awcAux]
  | succ rem ih =>
    intro i fs
    by_cases hw : wOk i
    · by_cases hr : rOk i
      · simp [awcAux, hw, hr]
      · by_cases hrm : remOk i
        · simpa [awcAux, hw, hr, hrm] using ih (i + 1) _
        · simpa [awcAux, hw, hr, hrm] using ih (i + 1) _
    · by_cases hrm : remOk i
      · simp [awcAux, hw, hrm]
      · simp [awcAux, hw, hrm]

theorem awcAux_trace_indep {α : Type} (wOk rOk remOk : Nat → Bool) (df : α) (base : Nat) :
    ∀ (rem i : Nat) (fs fs2 : FsState α),
      (awcAux wOk rOk remOk df base i rem fs).2 = (awcAux wOk rOk remOk df base i rem fs2).2 := by
  intro rem
  induction rem with
  | zero => intro i fs fs2; simp [awcAux]
  | succ rem ih =>
    intro i fs fs2
    by_cases hw : wOk i
    · by_cases hr : rOk i
      · simp [awcAux, hw, hr]
      · by_cases hrm : remOk i
        · have h := ih (i + 1) (⟨fs.target, (fs.tmps ++ [i]).filter (· ≠ i)⟩ : FsState α)
            (⟨fs2.target, (fs2.tmps ++ [i]).filter (· ≠ i)⟩ : FsState α)
          have h1 := congrArg Prod.fst h
          have h2 := congrArg Prod.snd h
          simp only [] at h1 h2
          simp at h1 h2
          simp [awcAux, hw, hr, hrm]
          exact ⟨h1, h2⟩
        · have h := ih (i + 1) (⟨fs.target, fs.tmps ++ [i]⟩ : FsState α)
            (⟨fs2.target, fs2.tmps ++ [i]⟩ : FsState α)
          simp [awcAux, hw, hr, hrm]
          exact ⟨congrArg Prod.fst h, congrArg Prod.snd h⟩
    · by_cases hrm : remOk i <;> simp [awcAux, hw, hrm]

theorem awcAux_countMkTmp {α : Type} (wOk rOk remOk : Nat → Bool) (df : α) (base : Nat) :
    ∀ (rem i : Nat) (fs : FsState α),
      countMkTmp (awcAux wOk rOk remOk df base i rem fs).2.1 ≤ rem := by
  intro rem
  induction rem with
  | zero => intro i fs; simp [awcAux, countMkTmp]
  | succ rem ih =>
    intro i fs
    by_cases hw : wOk i
    · by_cases hr : rOk i
      · simp [awcAux, hw, hr, countMkTmp]
      · by_cases hrm : remOk i
        · have h := ih (i + 1) (⟨fs.target, (fs.tmps ++ [i]).filter (· ≠ i)⟩ : FsState α)
          simp [awcAux, hw, hr, hrm, countMkTmp] at h ⊢
          omega
        · have h := ih (i + 1) (⟨fs.target, fs.tmps ++ [i]⟩ : FsState α)
          simp [awcAux, hw, hr, hrm, countMkTmp] at h ⊢
          omega
    · by_cases hrm : remOk i <;> simp [awcAux, hw, hrm, countMkTmp]

theorem awcAux_sleeps {α : Type} (wOk rOk remOk : Nat → Bool) (df : α) (base : Nat) :
    ∀ (rem i : Nat) (fs : FsState α),
      fsSleeps (awcAux wOk rOk remOk df base i rem fs).2.1 =
        (renameFailIdxs (awcAux wOk rOk remOk df base i rem fs).2.1).map
          fun j => base * (j + 1) := by
  intro rem
  induction rem with
  | zero => intro i fs; simp [awcAux, fsSleeps, renameFailIdxs]
  | succ rem ih =>
    intro i fs
    by_cases hw : wOk i
    · by_cases hr : rOk i
      · simp [awcAux, hw, hr, fsSleeps, renameFailIdxs]
      · by_cases hrm : remOk i
        · have h := ih (i + 1) (⟨fs.target, (fs.tmps ++ [i]).filter (· ≠ i)⟩ : FsState α)
          simp [awcAux, hw, hr, hrm, fsSleeps, renameFailIdxs] at h ⊢
          exact h
        · have h := ih (i + 1) (⟨fs.target, fs.tmps ++ [i]⟩ : FsState α)
          simp [awcAux, hw, hr, hrm, fsSleeps, renameFailIdxs] at h ⊢
          exact h
    · by_cases hrm : remOk i <;> simp [awcAux, hw, hrm, fsSleeps, renameFailIdxs]

/-! ## Lemmas on the journal append -/

theorem appendAux_count (ok : Nat → Bool) (base : Nat) :
    ∀ (rem i : Nat), countAttempts (appendAux ok base i rem).1 ≤ rem := by
  intro rem
  induction rem with
  | zero => intro i; simp [appendAux, countAttempts]
  | succ rem ih =>
    intro i
    by_cases h : ok i
    · simp [appendAux, h, countAttempts]
    · have h2 := ih (i + 1)
      simp [appendAux, h, countAttempts] at h2 ⊢
      omega

theorem appendAux_result (ok : Nat → Bool) (base : Nat) :
    ∀ (rem i : Nat), (appendAux ok base i rem).2 = (List.range' i rem).any ok := by
  intro rem
  induction rem with
  | zero => intro i; simp [appendAux]
  | succ rem ih =>
    intro i
    by_cases h : ok i
    · simp [appendAux, h, List.range']
    · simp [appendAux, h, List.range', ih (i + 1)]

theorem appendAux_sleeps (ok : Nat → Bool) (base : Nat) :
    ∀ (rem i : Nat),
      ioSleeps (appendAux ok base i rem).1 =
        (ioFailedIdxs (appendAux ok base i rem).1).map fun j => base * (j + 1) := by
  intro rem
  induction rem with
  | zero => intro i; simp [appendAux, ioSleeps, ioFailedIdxs]
  | succ rem ih =>
    intro i
    by_cases h : ok i
    · simp [appendAux, h, ioSleeps, ioFailedIdxs]
    · simp only [appendAux, h, if_false, Bool.false_eq_true, ioSleeps, ioFailedIdxs,
        List.filterMap_cons]
      simpa [ioSleeps, ioFailedIdxs] using ih (i + 1)

/-! ## C4 and C9 -/

/-- C4: Snapshot write atomicity.  If `atomic_write_csv` fails or is
interrupted at any point before a successful rename — a serialization
failure aborting the call, or every rename attempt failing until the
retries are exhausted — the target path still holds exactly the previous
snapshot content, whatever the outcomes of the best-effort temp-file
deletions; the target is only ever replaced atomically by a fully
serialized file, never by a truncated one. -/
theorem atomic_write_preserves_target {α : Type} (wOk rOk remOk : Nat → Bool)
    (df : α) (retries base : Nat) (fs : FsState α)
    (hfail : (atomic_write_csv wOk rOk remOk df retries base fs).2.2 = false) :
    (atomic_write_csv wOk rOk remOk df retries base fs).1.target = fs.target := by
  unfold atomic_write_csv at hfail ⊢
  by_cases h : retries = 0
  · simp [h] at hfail
  · simp only [h, if_false] at hfail ⊢
    exact (awcAux_target wOk rOk remOk df base retries 0 fs).1 hfail

/-- Witness for C4: with every serialization failing, the call fails and an
existing snapshot content `0` is untouched. -/
theorem atomic_write_preserves_target_witness :
    (atomic_write_csv (fun _ => false) (fun _ => true) (fun _ => true) (1 : Nat)
        6 250 ⟨some 0, []⟩).1.target = some 0 :=
  atomic_write_preserves_target (fun _ => false) (fun _ => true) (fun _ => true)
    1 6 250 ⟨some 0, []⟩ (by rfl)

/-- C9: Bounded I/O retries.  The journal append performs at most its 5
attempts, succeeds exactly when one of those attempts succeeds (otherwise
it surfaces a definite failure by re-raising the last error), and its
sleeps follow the 150ms-base linear backoff; the snapshot writer performs
at most its 6 attempts and its sleeps follow the 250ms-base linear
backoff.  Both are total functions of their oracles, so every caller
operation terminates. -/
theorem bounded_io_retries {α : Type} (ok wOk rOk remOk : Nat → Bool) (df : α)
    (fs : FsState α) :
    countAttempts (append_log_line ok 5 150).1 ≤ 5 ∧
    (append_log_line ok 5 150).2 = (List.range 5).any ok ∧
    ioSleeps (append_log_line ok 5 150).1 =
      (ioFailedIdxs (append_log_line ok 5 150).1).map (fun i => 150 * (i + 1)) ∧
    countMkTmp (atomic_write_csv wOk rOk remOk df 6 250 fs).2.1 ≤ 6 ∧
    fsSleeps (atomic_write_csv wOk rOk remOk df 6 250 fs).2.1 =
      (renameFailIdxs (atomic_write_csv wOk rOk remOk df 6 250 fs).2.1).map
        (fun i => 250 * (i + 1)) := by
  have hA : append_log_line ok 5 150 = appendAux ok 150 0 5 := by
    simp [append_log_line]
  have hW : atomic_write_csv wOk rOk remOk df 6 250 fs
      = awcAux wOk rOk remOk df 250 0 6 fs := by
    simp [atomic_write_csv]
  rw [hA, hW]
  refine ⟨?_, ?_, ?_, ?_, ?_⟩
  · exact appendAux_count ok 150 5 0
  · rw [List.range_eq_range']
    exact appendAux_result ok 150 5 0
  · exact appendAux_sleeps ok 150 5 0
  · exact awcAux_countMkTmp wOk rOk remOk df 250 6 0 fs
  · exact awcAux_sleeps wOk rOk remOk df 250 6 0 fs

/-! ## Generic list lemmas -/

theorem dropWhile_append_of_all {α : Type} (p : α → Bool) :
    ∀ (l1 l2 : List α), (∀ a ∈ l1, p a = true) →
      (l1 ++ l2).dropWhile p = l2.dropWhile p := by
  intro l1
  induction l1 with
  | nil => intro l2 _; rfl
  | cons a l1 ih =>
    intro l2 h
    have ha := h a (List.mem_cons_self a l1)
    simp only [List.cons_append, List.dropWhile_cons, ha, if_true]
    exact ih l2 fun x hx => h x (List.mem_cons_of_mem a hx)

theorem dropWhile_eq_self_of_forall {α : Type} (p : α → Bool) (l : List α)
    (h : ∀ a ∈ l, p a = false) : l.dropWhile p = l := by
  cases l with
  | nil => rfl
  | cons a l => simp [List.dropWhile_cons, h a (List.mem_cons_self a l)]

theorem dropWhile_eq_nil_of_forall {α : Type} (p : α → Bool) :
    ∀ (l : List α), (∀ a ∈ l, p a = true) → l.dropWhile p = [] := by
  intro l
  induction l with
  | nil => intro _; rfl
  | cons a l ih =>
    intro h
    simp only [List.dropWhile_cons, h a (List.mem_cons_self a l), if_true]
    exact ih fun x hx => h x (List.mem_cons_of_mem a hx)

theorem takeWhile_eq_self_of_forall {α : Type} (p : α → Bool) :
    ∀ (l : List α), (∀ a ∈ l, p a = true) → l.takeWhile p = l := by
  intro l
  induction l with
  | nil => intro _; rfl
  | cons a l ih =>
    intro h
    simp only [List.takeWhile_cons, h a (List.mem_cons_self a l), if_true]
    rw [ih fun x hx => h x (List.mem_cons_of_mem a hx)]

theorem takeWhile_middle {α : Type} (p : α → Bool) :
    ∀ (l1 : List α) (x : α) (rest : List α), (∀ a ∈ l1, p a = true) → p x = false →
      (l1 ++ x :: rest).takeWhile p = l1 := by
  intro l1
  induction l1 with
  | nil => intro x rest _ hx; simp [List.takeWhile_cons, hx]
  | cons a l1 ih =>
    intro x rest h hx
    simp only [List.cons_append, List.takeWhile_cons, h a (List.mem_cons_self a l1), if_true]
    rw [ih x rest (fun y hy => h y (List.mem_cons_of_mem a hy)) hx]

theorem dropWhile_middle {α : Type} (p : α → Bool) :
    ∀ (l1 : List α) (x : α) (rest : List α), (∀ a ∈ l1, p a = true) → p x = false →
      (l1 ++ x :: rest).dropWhile p = x :: rest := by
  intro l1 x rest h hx
  rw [dropWhile_append_of_all p l1 (x :: rest) h]
  simp [List.dropWhile_cons, hx]

/-! ## Write-ahead discipline of the mutating commands (C2) -/

/-- Every journal append of the effect list comes before every other
effect: after the leading appends no further append occurs. -/
def appendsFirst (l : List Eff) : Bool :=
  (l.dropWhile Eff.isAppend).all fun e => !e.isAppend

theorem runEffs_ok_of_no_append (jOk : Nat → Bool) :
    ∀ (l : List Eff) (k : Nat) (st : BotState),
      (∀ e ∈ l, e.isAppend = false) → (runEffs jOk l k st).2.2 = true := by
  intro l
  induction l with
  | nil => intro k st _; simp [runEffs]
  | cons e rest ih =>
    intro k st h
    have hrest : ∀ x ∈ rest, x.isAppend = false :=
      fun x hx => h x (List.mem_cons_of_mem e hx)
    cases e with
    | appendLog p line =>
      have := h _ (List.mem_cons_self _ rest)
      simp [Eff.isAppend] at this
    | setReg f => simpa [runEffs] using ih k { st with reg := f st.reg } hrest
    | setDevs f => simpa [runEffs] using ih k { st with devs := f st.devs } hrest
    | sendMedia => simpa [runEffs] using ih k st hrest
    | saveCsv p => simpa [runEffs] using ih k st hrest

theorem runEffs_st_of_fail (jOk : Nat → Bool) :
    ∀ (l : List Eff) (k : Nat) (st : BotState),
      appendsFirst l = true → (runEffs jOk l k st).2.2 = false →
      (runEffs jOk l k st).1 = st := by
  intro l
  induction l with
  | nil => intro k st _ hfail; simp [runEffs] at hfail
  | cons e rest ih =>
    intro k st haf hfail
    by_cases happ : e.isAppend = true
    · cases e with
      | appendLog p line =>
        have haf2 : appendsFirst rest = true := by
          simpa [appendsFirst, List.dropWhile_cons, Eff.isAppend] using haf
        by_cases hj : jOk k
        · simp only [runEffs, hj, if_true] at hfail ⊢
          exact ih _ _ haf2 hfail
        · simp [runEffs, hj]
      | setReg f => simp [Eff.isAppend] at happ
      | setDevs f => simp [Eff.isAppend] at happ
      | sendMedia => simp [Eff.isAppend] at happ
      | saveCsv p => simp [Eff.isAppend] at happ
    · exfalso
      have hne : e.isAppend = false := by
        cases hb : e.isAppend
        · rfl
        · exact absurd hb happ
      have hall : ∀ x ∈ (e :: rest), x.isAppend = false := by
        have hd : (e :: rest).dropWhile Eff.isAppend = e :: rest := by
          simp [List.dropWhile_cons, hne]
        rw [appendsFirst, hd, List.all_eq_true] at haf
        intro x hx
        have := haf x hx
        simpa using this
      have hok := runEffs_ok_of_no_append jOk (e :: rest) k st hall
      rw [hok] at hfail
      simp at hfail

theorem appendsFirst_of_append (l1 l2 : List Eff)
    (h1 : ∀ e ∈ l1, e.isAppend = true) (h2 : ∀ e ∈ l2, e.isAppend = false) :
    appendsFirst (l1 ++ l2) = true := by
  rw [appendsFirst, dropWhile_append_of_all Eff.isAppend l1 l2 h1,
    dropWhile_eq_self_of_forall Eff.isAppend l2 h2, List.all_eq_true]
  intro x hx
  simp [h2 x hx]

theorem appendsFirst_vendido (st : BotState) (rango : Option (Int × Int))
    (tu : Int) (tn : String) (nums : List Int) (ts : String) :
    appendsFirst (vendido_effects st rango tu tn nums ts) = true := by
  by_cases hc : (vendidoClassify st.reg st.lotes rango tn nums).permitidos.isEmpty = true
  · simp [vendido_effects, hc, appendsFirst]
  · simp only [vendido_effects, hc, if_false, Bool.false_eq_true]
    apply appendsFirst_of_append
    · intro e he
      simp only [List.mem_map] at he
      obtain ⟨n, _, rfl⟩ := he
      rfl
    · intro e he
      simp only [List.mem_cons, List.not_mem_nil, or_false] at he
      rcases he with rfl | rfl <;> rfl

theorem appendsFirst_handle (st : BotState) (uid : Int) (mi : String)
    (nums : List Int) (ts : String) (imgEx : Int → Bool) :
    appendsFirst (handle_effects st uid mi nums ts imgEx) = true := by
  by_cases hc : ((aEnviar st.reg uid (pedidoClassify st.lotes mi nums).permitidos).filter
      imgEx).isEmpty = true
  · simp [handle_effects, hc, appendsFirst]
  · simp only [handle_effects, hc, if_false, Bool.false_eq_true]
    apply appendsFirst_of_append
    · intro e he
      simp only [List.mem_map] at he
      obtain ⟨n, _, rfl⟩ := he
      rfl
    · intro e he
      simp only [List.mem_cons, List.not_mem_nil, or_false] at he
      rcases he with rfl | rfl | rfl <;> rfl

theorem appendsFirst_remover (st : BotState) (uid : Int) (un : String)
    (nums : List Int) (ts : String) :
    appendsFirst (remover_effects st uid un nums ts) = true := by
  by_cases hc : (removerMatching st.reg uid nums).isEmpty = true
  · simp [remover_effects, hc, appendsFirst]
  · simp only [remover_effects, hc, if_false, Bool.false_eq_true]
    apply appendsFirst_of_append
    · intro e he
      simp only [List.mem_map] at he
      obtain ⟨r, _, rfl⟩ := he
      rfl
    · intro e he
      simp only [List.mem_cons, List.not_mem_nil, or_false] at he
      rcases he with rfl | rfl | rfl | rfl <;> rfl

/-- C2: Write-ahead discipline.  In each of the three mutating operations
(`/vendido`, the number-request sale path of `handle_message`, and the
return command `remover_carton`) every durable journal append comes
strictly before any in-memory table mutation, and when a journal append
fails (raising after its retries are exhausted) the operation stops with
the in-memory tables exactly as they were: the tables are never mutated
unless every matching journal write succeeded. -/
theorem write_ahead_discipline (st : BotState) (rango : Option (Int × Int))
    (tu : Int) (tn : String) (nums : List Int) (ts : String)
    (uid : Int) (mi : String) (nums2 : List Int) (ts2 : String)
    (imgEx : Int → Bool) (uid2 : Int) (un : String) (nums3 : List Int)
    (ts3 : String) (jOk : Nat → Bool) :
    appendsFirst (vendido_effects st rango tu tn nums ts) = true ∧
    appendsFirst (handle_effects st uid mi nums2 ts2 imgEx) = true ∧
    appendsFirst (remover_effects st uid2 un nums3 ts3) = true ∧
    ((runEffs jOk (vendido_effects st rango tu tn nums ts) 0 st).2.2 = false →
      (runEffs jOk (vendido_effects st rango tu tn nums ts) 0 st).1 = st) ∧
    ((runEffs jOk (handle_effects st uid mi nums2 ts2 imgEx) 0 st).2.2 = false →
      (runEffs jOk (handle_effects st uid mi nums2 ts2 imgEx) 0 st).1 = st) ∧
    ((runEffs jOk (remover_effects st uid2 un nums3 ts3) 0 st).2.2 = false →
      (runEffs jOk (remover_effects st uid2 un nums3 ts3) 0 st).1 = st) :=
  ⟨appendsFirst_vendido st rango tu tn nums ts,
   appendsFirst_handle st uid mi nums2 ts2 imgEx,
   appendsFirst_remover st uid2 un nums3 ts3,
   runEffs_st_of_fail jOk _ 0 st (appendsFirst_vendido st rango tu tn nums ts),
   runEffs_st_of_fail jOk _ 0 st (appendsFirst_handle st uid mi nums2 ts2 imgEx),
   runEffs_st_of_fail jOk _ 0 st (appendsFirst_remover st uid2 un nums3 ts3)⟩

/-- Witness for C2: on an empty store, `/vendido` of ticket 3 to user 1 has
a nonempty effect list, and with the journal append failing the state is
unchanged. -/
theorem write_ahead_discipline_witness :
    (runEffs (fun _ => false)
        (vendido_effects ⟨[], [], []⟩ none 1 "ana" [3] "t") 0
        ⟨[], [], []⟩).1 = ⟨[], [], []⟩ :=
  (write_ahead_discipline ⟨[], [], []⟩ none 1 "ana" [3] "t" 1 "ana" [3] "t"
      (fun _ => true) 1 "ana" [3] "t" (fun _ => false)).2.2.2.1 (by rfl)

/-! ## Assignment conflict (C8) -/

theorem lookupOwner_append_last (lotes : List LoteRow) (o : String) (n : Int) :
    lookupOwner (lotes ++ [⟨o, n⟩]) n = some o := by
  simp [lookupOwner, List.find?]

/-- C8: Assignment conflict.  Assigning a fresh ticket `n` to owner `o1` and
then attempting to assign the same ticket to a different owner `o2` yields
exactly the conflict outcome naming `o1`, adds nothing, and leaves the
Assignment table unchanged — the existing row is neither removed nor
duplicated and no row for `o2` is added. -/
theorem assignment_conflict (st : BotState) (o1 o2 : String) (n : Int)
    (hfresh : lookupOwner st.lotes n = none)
    (hdiff : canon o2 ≠ canon o1) :
    (comando_lote st o1 [n]).2.nuevos = [n] ∧
    (comando_lote st o1 [n]).1.lotes = st.lotes ++ [⟨o1, n⟩] ∧
    (comando_lote (comando_lote st o1 [n]).1 o2 [n]).2.conflictos = [(n, o1)] ∧
    (comando_lote (comando_lote st o1 [n]).1 o2 [n]).2.nuevos = [] ∧
    (comando_lote (comando_lote st o1 [n]).1 o2 [n]).2.ya_mios = [] ∧
    (comando_lote (comando_lote st o1 [n]).1 o2 [n]).1.lotes =
      (comando_lote st o1 [n]).1.lotes := by
  have hsort : sortInts [n] = [n] := rfl
  have hcls1 : loteClassify st.lotes o1 [n] =
      { nuevos := [n], ya_mios := [], conflictos := [] } := by
    simp [loteClassify, hsort, loteGo, hfresh]
  set st1 := (comando_lote st o1 [n]).1 with hst1def
  have hst1 : st1.lotes = st.lotes ++ [⟨o1, n⟩] := by
    rw [hst1def]; simp [comando_lote, hcls1]
  have hown : lookupOwner st1.lotes n = some o1 := by
    rw [hst1]; exact lookupOwner_append_last st.lotes o1 n
  have hcls2 : loteClassify st1.lotes o2 [n] =
      { nuevos := [], ya_mios := [], conflictos := [(n, o1)] } := by
    have hne : ¬(canon o1 = canon o2) := fun h => hdiff h.symm
    simp [loteClassify, hsort, loteGo, hown, hne]
  refine ⟨?_, hst1, ?_, ?_, ?_, ?_⟩
  · simp [comando_lote, hcls1]
  · show (loteClassify st1.lotes o2 [n]).conflictos = [(n, o1)]
    rw [hcls2]
  · show (loteClassify st1.lotes o2 [n]).nuevos = []
    rw [hcls2]
  · show (loteClassify st1.lotes o2 [n]).ya_mios = []
    rw [hcls2]
  · show (if (loteClassify st1.lotes o2 [n]).nuevos.isEmpty then st1.lotes
        else st1.lotes ++ (loteClassify st1.lotes o2 [n]).nuevos.map
          fun m => LoteRow.mk o2 m) = st1.lotes
    rw [hcls2]
    rfl

/-- Witness for C8: the concrete spec example, ticket 7 assigned to "ana"
then requested for "luis", on an empty table. -/
theorem assignment_conflict_witness :
    lookupOwner (⟨[], [], []⟩ : BotState).lotes 7 = none ∧
    (comando_lote (comando_lote ⟨[], [], []⟩ "ana" [7]).1 "luis" [7]).2.conflictos
      = [(7, "ana")] ∧
    (comando_lote (comando_lote ⟨[], [], []⟩ "ana" [7]).1 "luis" [7]).1.lotes =
      (comando_lote ⟨[], [], []⟩ "ana" [7]).1.lotes :=
  ⟨rfl,
   (assignment_conflict ⟨[], [], []⟩ "ana" "luis" 7 rfl (by decide)).2.2.1,
   (assignment_conflict ⟨[], [], []⟩ "ana" "luis" 7 rfl (by decide)).2.2.2.2.2⟩

/-! ## Sorting and set-insertion lemmas -/

theorem mem_insertSorted (n m : Int) : ∀ (l : List Int),
    m ∈ insertSorted n l ↔ m = n ∨ m ∈ l := by
  intro l
  induction l with
  | nil => simp [insertSorted]
  | cons a l ih =>
    by_cases h : n ≤ a
    · simp [insertSorted, h]
    · simp [insertSorted, h, ih]
      tauto

theorem mem_sortInts (m : Int) : ∀ (l : List Int), m ∈ sortInts l ↔ m ∈ l := by
  intro l
  induction l with
  | nil => simp [sortInts]
  | cons a l ih =>
    show m ∈ insertSorted a (sortInts l) ↔ _
    rw [mem_insertSorted, ih]
    simp

theorem nodup_insertSorted (n : Int) : ∀ (l : List Int),
    l.Nodup → n ∉ l → (insertSorted n l).Nodup := by
  intro l
  induction l with
  | nil => intro _ _; simp [insertSorted]
  | cons a l ih =>
    intro hnd hnm
    by_cases h : n ≤ a
    · simp only [insertSorted, h, if_true]
      exact List.Nodup.cons hnm hnd
    · simp only [insertSorted, h, if_false]
      have ha : a ∉ l := (List.nodup_cons.mp hnd).1
      have h2 : a ∉ insertSorted n l := by
        rw [mem_insertSorted]
        push_neg
        constructor
        · intro he
          exact hnm (by simp [he])
        · exact ha
      exact List.Nodup.cons h2 (ih (List.nodup_cons.mp hnd).2 fun hm => hnm (by simp [hm]))

theorem nodup_sortInts : ∀ (l : List Int), l.Nodup → (sortInts l).Nodup := by
  intro l
  induction l with
  | nil => intro _; simp [sortInts]
  | cons a l ih =>
    intro hnd
    show (insertSorted a (sortInts l)).Nodup
    have ⟨ha, hl⟩ := List.nodup_cons.mp hnd
    exact nodup_insertSorted a (sortInts l) (ih hl) fun hm => ha ((mem_sortInts a l).mp hm)

theorem mem_insertNum (n m : Int) (acc : List Int) :
    m ∈ insertNum n acc ↔ m = n ∨ m ∈ acc := by
  unfold insertNum
  split
  · rename_i h
    constructor
    · exact fun hm => Or.inr hm
    · rintro (rfl | hm)
      · exact h
      · exact hm
  · simp [or_comm]

theorem nodup_insertNum (n : Int) (acc : List Int) (h : acc.Nodup) :
    (insertNum n acc).Nodup := by
  unfold insertNum
  split
  · exact h
  · rename_i hn
    simp [List.nodup_append, h, hn]

theorem mem_insertAll (ns : List Int) (m : Int) : ∀ (acc : List Int),
    m ∈ insertAll ns acc ↔ m ∈ ns ∨ m ∈ acc := by
  induction ns with
  | nil => intro acc; simp [insertAll]
  | cons a ns ih =>
    intro acc
    show m ∈ insertAll ns (insertNum a acc) ↔ _
    rw [ih, mem_insertNum]
    simp
    tauto

/-! ## Evaluation of the run wrappers -/

theorem runEffs_true_appends {β : Type} (p : String) :
    ∀ (l : List β) (f : β → String) (rest : List Eff) (k : Nat) (st : BotState),
      runEffs (fun _ => true) ((l.map fun b => Eff.appendLog p (f b)) ++ rest) k st =
        runEffs (fun _ => true) rest (k + l.length) st := by
  intro l
  induction l with
  | nil => intro f rest k st; simp
  | cons b l ih =>
    intro f rest k st
    have h1 : ((b :: l).map fun x => Eff.appendLog p (f x)) ++ rest
        = Eff.appendLog p (f b) :: ((l.map fun x => Eff.appendLog p (f x)) ++ rest) := by
      simp
    rw [h1]
    have h2 : runEffs (fun _ => true)
        (Eff.appendLog p (f b) :: ((l.map fun x => Eff.appendLog p (f x)) ++ rest)) k st
        = runEffs (fun _ => true) ((l.map fun x => Eff.appendLog p (f x)) ++ rest)
            (k + 1) st := rfl
    rw [h2, ih f rest (k + 1) st]
    congr 1
    simp only [List.length_cons]
    omega

/-- The sale row inserted by both sale paths. -/
def saleRow (uid : Int) (name : String) (n : Int) : RegRow :=
  { usuario_id := uid, nombre_usuario := name, imagen := n, devuelto_por := "" }

/-- The check phase of the sale path of `handle_message`: the sold-check
reads `reg_df` under one `reg_lock` acquisition (`a_enviar`, the permitted
numbers not in `enviados_usuario`/`vendidos_global`) and image existence is
tested afterwards, producing `ok_nums`.  In the source this phase ends
before the awaited `reply_text_retry`/`send_media_group_retry` calls. -/
def handleOkNums (st : BotState) (uid : Int) (miNombre : String)
    (numeros : List Int) (imgExists : Int → Bool) : List Int :=
  (aEnviar st.reg uid (pedidoClassify st.lotes miNombre numeros).permitidos).filter
    imgExists

/-- The commit phase of the sale path of `handle_message`: a second,
separate `reg_lock` acquisition concatenates one row per `ok_nums` number
onto `reg_df` (no re-check of soldness happens there); with `ok_nums`
empty nothing is inserted. -/
def handleInsert (st : BotState) (uid : Int) (miNombre : String)
    (okNums : List Int) : BotState :=
  if okNums.isEmpty then st
  else { st with reg := st.reg ++ okNums.map (saleRow uid miNombre) }


theorem vendidoRun_eq (st : BotState) (rango : Option (Int × Int)) (tu : Int)
    (tn : String) (nums : List Int) (ts : String) :
    vendidoRun st rango tu tn nums ts =
      { st with reg := st.reg ++
          ((vendidoClassify st.reg st.lotes rango tn nums).permitidos.map
            (saleRow tu tn)) } := by
  by_cases hc : (vendidoClassify st.reg st.lotes rango tn nums).permitidos.isEmpty = true
  · have hp : (vendidoClassify st.reg st.lotes rango tn nums).permitidos = [] := by
      simpa using hc
    simp [vendidoRun, vendido_effects, hc, runEffs, hp]
  · have heff : vendido_effects st rango tu tn nums ts =
        ((vendidoClassify st.reg st.lotes rango tn nums).permitidos.map
          fun n => Eff.appendLog VENTAS_LOG (ventaLine tu tn n ts)) ++
        [Eff.setReg (fun rg => rg ++
            (vendidoClassify st.reg st.lotes rango tn nums).permitidos.map
              fun n => RegRow.mk tu tn n ""),
         Eff.saveCsv CSV_FILE] := by
      simp only [vendido_effects, hc, if_false, Bool.false_eq_true]
    unfold vendidoRun
    rw [heff, runEffs_true_appends VENTAS_LOG
      (vendidoClassify st.reg st.lotes rango tn nums).permitidos
      (fun n => ventaLine tu tn n ts)]
    rfl

theorem handleRun_eq (st : BotState) (uid : Int) (mi : String)
    (nums : List Int) (ts : String) (imgEx : Int → Bool) :
    handleRun st uid mi nums ts imgEx =
      { st with reg := st.reg ++
          (((aEnviar st.reg uid (pedidoClassify st.lotes mi nums).permitidos).filter
            imgEx).map (saleRow uid mi)) } := by
  by_cases hc : ((aEnviar st.reg uid (pedidoClassify st.lotes mi nums).permitidos).filter
      imgEx).isEmpty = true
  · have hp : ((aEnviar st.reg uid (pedidoClassify st.lotes mi nums).permitidos).filter
        imgEx) = [] := by
      simpa using hc
    simp [handleRun, handle_effects, hc, runEffs, hp]
  · have heff : handle_effects st uid mi nums ts imgEx =
        (((aEnviar st.reg uid (pedidoClassify st.lotes mi nums).permitidos).filter
            imgEx).map
          fun n => Eff.appendLog VENTAS_LOG (ventaLine uid mi n ts)) ++
        [Eff.sendMedia,
         Eff.setReg (fun rg => rg ++
            ((aEnviar st.reg uid (pedidoClassify st.lotes mi nums).permitidos).filter
              imgEx).map fun n => RegRow.mk uid mi n ""),
         Eff.saveCsv CSV_FILE] := by
      simp only [handle_effects, hc, if_false, Bool.false_eq_true]
    unfold handleRun
    rw [heff, runEffs_true_appends VENTAS_LOG
      ((aEnviar st.reg uid (pedidoClassify st.lotes mi nums).permitidos).filter imgEx)
      (fun n => ventaLine uid mi n ts)]
    rfl

theorem removerRun_eq (st : BotState) (uid : Int) (un : String)
    (nums : List Int) (ts : String) :
    removerRun st uid un nums ts =
      { st with
        reg := st.reg.filter fun r => !(r.usuario_id == uid && nums.contains r.imagen),
        devs := st.devs ++ ((removerMatching st.reg uid nums).map fun r =>
          { usuario_id := r.usuario_id, nombre_usuario := r.nombre_usuario,
            imagen := r.imagen, devuelto_por := un, fecha := ts }) } := by
  by_cases hc : (removerMatching st.reg uid nums).isEmpty = true
  · have hp : removerMatching st.reg uid nums = [] := by simpa using hc
    have hfl : st.reg.filter (fun r => !(r.usuario_id == uid && nums.contains r.imagen))
        = st.reg := by
      rw [List.filter_eq_self]
      intro r hr
      have h2 : ¬(r.usuario_id == uid && nums.contains r.imagen) = true := by
        rw [removerMatching, List.filter_eq_nil_iff] at hp
        exact hp r hr
      cases hb : (r.usuario_id == uid && nums.contains r.imagen)
      · rfl
      · exact absurd hb h2
    have hrun : removerRun st uid un nums ts = st := by
      simp [removerRun, remover_effects, hc, runEffs]
    rw [hrun, hp, hfl]
    simp
  · have heff : remover_effects st uid un nums ts =
        ((removerMatching st.reg uid nums).map fun r =>
          Eff.appendLog DEVOL_LOG
            (devolLine r.usuario_id r.nombre_usuario r.imagen ts un)) ++
        [Eff.setReg (fun rg =>
            rg.filter fun r => !(r.usuario_id == uid && nums.contains r.imagen)),
         Eff.setDevs (fun ds => ds ++
            (removerMatching st.reg uid nums).map fun r =>
              DevRow.mk r.usuario_id r.nombre_usuario r.imagen un ts),
         Eff.saveCsv CSV_FILE, Eff.saveCsv DEVOLUCIONES_FILE] := by
      simp only [remover_effects, hc, if_false, Bool.false_eq_true]
    unfold removerRun
    rw [heff, runEffs_true_appends DEVOL_LOG (removerMatching st.reg uid nums)
      (fun r => devolLine r.usuario_id r.nombre_usuario r.imagen ts un)]
    rfl

/-! ## Properties of the sell classification -/

theorem vendidoGo_perm_sublist (reg : List RegRow) (lotes : List LoteRow)
    (rango : Option (Int × Int)) (tn : String) (t : Bool) :
    ∀ (l : List Int), (vendidoGo reg lotes rango tn t l).permitidos.Sublist l := by
  intro l
  induction l with
  | nil => simp [vendidoGo]
  | cons n ns ih =>
    by_cases h1 : rangePass rango n = true
    · by_cases h2 : n ∈ soldTickets reg
      · simpa [vendidoGo, h1, h2] using ih.cons n
      · rcases hlo : lookupOwner lotes n with _ | owner
        · cases ht : t
          · simpa [vendidoGo, h1, h2, hlo, ht] using ih.cons₂ n
          · simpa [vendidoGo, h1, h2, hlo, ht] using ih.cons n
        · by_cases hcn : canon owner = canon tn
          · simpa [vendidoGo, h1, h2, hlo, hcn] using ih.cons₂ n
          · simpa [vendidoGo, h1, h2, hlo, hcn] using ih.cons n
    · simpa [vendidoGo, h1] using ih.cons n

theorem vendidoGo_mem_perm (reg : List RegRow) (lotes : List LoteRow)
    (rango : Option (Int × Int)) (tn : String) (t : Bool) :
    ∀ (l : List Int) (n : Int), n ∈ (vendidoGo reg lotes rango tn t l).permitidos →
      rangePass rango n = true ∧ n ∉ soldTickets reg := by
  intro l
  induction l with
  | nil => intro n h; simp [vendidoGo] at h
  | cons m ns ih =>
    intro n h
    by_cases h1 : rangePass rango m = true
    · by_cases h2 : m ∈ soldTickets reg
      · have hh : n ∈ (vendidoGo reg lotes rango tn t ns).permitidos := by
          simpa [vendidoGo, h1, h2] using h
        exact ih n hh
      · rcases hlo : lookupOwner lotes m with _ | owner
        · cases t with
          | true =>
            have hh : n ∈ (vendidoGo reg lotes rango tn true ns).permitidos := by
              simpa [vendidoGo, h1, h2, hlo] using h
            exact ih n hh
          | false =>
            have hh : n = m ∨ n ∈ (vendidoGo reg lotes rango tn false ns).permitidos := by
              simpa [vendidoGo, h1, h2, hlo] using h
            rcases hh with rfl | hh
            · exact ⟨h1, h2⟩
            · exact ih n hh
        · by_cases hcn : canon owner = canon tn
          · have hh : n = m ∨ n ∈ (vendidoGo reg lotes rango tn t ns).permitidos := by
              simpa [vendidoGo, h1, h2, hlo, hcn] using h
            rcases hh with rfl | hh
            · exact ⟨h1, h2⟩
            · exact ih n hh
          · have hh : n ∈ (vendidoGo reg lotes rango tn t ns).permitidos := by
              simpa [vendidoGo, h1, h2, hlo, hcn] using h
            exact ih n hh
    · have hh : n ∈ (vendidoGo reg lotes rango tn t ns).permitidos := by
        simpa [vendidoGo, h1] using h
      exact ih n hh

theorem vendidoGo_mem_perm_of (reg : List RegRow) (lotes : List LoteRow)
    (rango : Option (Int × Int)) (tn : String) :
    ∀ (l : List Int) (n : Int), n ∈ l → rangePass rango n = true →
      n ∉ soldTickets reg → lookupOwner lotes n = none →
      n ∈ (vendidoGo reg lotes rango tn false l).permitidos := by
  intro l
  induction l with
  | nil => intro n h; simp at h
  | cons m ns ih =>
    intro n hm hr hs hlo
    rcases List.mem_cons.mp hm with rfl | hm2
    · simp [vendidoGo, hr, hs, hlo]
    · have hrec := ih n hm2 hr hs hlo
      by_cases h1 : rangePass rango m = true
      · by_cases h2 : m ∈ soldTickets reg
        · simpa [vendidoGo, h1, h2] using hrec
        · rcases hlo2 : lookupOwner lotes m with _ | owner
          · simp [vendidoGo, h1, h2, hlo2]
            exact Or.inr hrec
          · by_cases hcn : canon owner = canon tn
            · simp [vendidoGo, h1, h2, hlo2, hcn]
              exact Or.inr hrec
            · simpa [vendidoGo, h1, h2, hlo2, hcn] using hrec
      · simpa [vendidoGo, h1] using hrec

theorem vendidoGo_mem_ya (reg : List RegRow) (lotes : List LoteRow)
    (rango : Option (Int × Int)) (tn : String) (t : Bool) :
    ∀ (l : List Int) (n : Int), n ∈ l → rangePass rango n = true →
      n ∈ soldTickets reg → n ∈ (vendidoGo reg lotes rango tn t l).ya_vendidos := by
  intro l
  induction l with
  | nil => intro n h; simp at h
  | cons m ns ih =>
    intro n hm hr hs
    rcases List.mem_cons.mp hm with rfl | hm2
    · simp [vendidoGo, hr, hs]
    · have hrec := ih n hm2 hr hs
      by_cases h1 : rangePass rango m = true
      · by_cases h2 : m ∈ soldTickets reg
        · simp [vendidoGo, h1, h2]
          exact Or.inr hrec
        · rcases hlo2 : lookupOwner lotes m with _ | owner
          · cases ht : t
            · simpa [vendidoGo, h1, h2, hlo2, ht] using hrec
            · simpa [vendidoGo, h1, h2, hlo2, ht] using hrec
          · by_cases hcn : canon owner = canon tn
            · simpa [vendidoGo, h1, h2, hlo2, hcn] using hrec
            · simpa [vendidoGo, h1, h2, hlo2, hcn] using hrec
      · simpa [vendidoGo, h1] using hrec

theorem pedidoGo_perm_sublist (lotes : List LoteRow) (mi : String) (t : Bool) :
    ∀ (l : List Int), (pedidoGo lotes mi t l).permitidos.Sublist l := by
  intro l
  induction l with
  | nil => simp [pedidoGo]
  | cons n ns ih =>
    rcases hlo : lookupOwner lotes n with _ | owner
    · cases ht : t
      · simpa [pedidoGo, hlo, ht] using ih.cons₂ n
      · simpa [pedidoGo, hlo, ht] using ih.cons n
    · by_cases hcn : canon owner = canon mi
      · simpa [pedidoGo, hlo, hcn] using ih.cons₂ n
      · simpa [pedidoGo, hlo, hcn] using ih.cons n

theorem mem_aEnviar_not_sold (reg : List RegRow) (uid : Int) (perm : List Int)
    (n : Int) (h : n ∈ aEnviar reg uid perm) : n ∉ soldTickets reg := by
  rw [aEnviar] at h
  have h2 := (List.mem_filter.mp h).2
  intro hmem
  simp [hmem] at h2

/-! ## No-double-sell: transition system and invariant (C3) -/

/-- The tickets of the Sales table are pairwise distinct. -/
def TicketsNodup (st : BotState) : Prop := (soldTickets st.reg).Nodup

/-- One mutating operation of the running bot, applied without interleaving.
For `/vendido`, `/remover` and `/lote` this matches the source: each
check-and-mutate section sits inside a single lock acquisition with no
awaited call in between.  The sale path of `handle_message` is different:
its sold-check and its insert are two separate `reg_lock` acquisitions
with awaited sends between them, so the `pedido` constructor models only
the uninterleaved execution of that path — the program does not guarantee
it (see `handle_double_sell_interleaved` for the interleaving that breaks
the invariant, via the split `handleOkNums`/`handleInsert` phases).  The
number lists come from `parse_numeros`, which returns a set, hence the
`Nodup` hypotheses. -/
inductive Step : BotState → BotState → Prop
  | vendido (st : BotState) (rango : Option (Int × Int)) (tu : Int) (tn : String)
      (nums : List Int) (ts : String) (h : nums.Nodup) :
      Step st (vendidoRun st rango tu tn nums ts)
  | pedido (st : BotState) (uid : Int) (mi : String) (nums : List Int)
      (ts : String) (imgEx : Int → Bool) (h : nums.Nodup) :
      Step st (handleRun st uid mi nums ts imgEx)
  | remover (st : BotState) (uid : Int) (un : String) (nums : List Int)
      (ts : String) :
      Step st (removerRun st uid un nums ts)
  | lote (st : BotState) (name : String) (nums : List Int) :
      Step st (comando_lote st name nums).1

/-- States reachable from the empty store by the mutating operations. -/
def Reachable (st : BotState) : Prop :=
  Relation.ReflTransGen Step ⟨[], [], []⟩ st

theorem soldTickets_append_sale (reg : List RegRow) (tu : Int) (tn : String)
    (perm : List Int) :
    soldTickets (reg ++ perm.map (saleRow tu tn)) = soldTickets reg ++ perm := by
  unfold soldTickets
  rw [List.map_append, List.map_map]
  congr 1
  induction perm with
  | nil => rfl
  | cons a l ih => simp only [List.map_cons, ih]; rfl

theorem vendidoRun_filter_of_sold (st : BotState) (rango : Option (Int × Int))
    (tu : Int) (tn : String) (nums : List Int) (ts : String) (n : Int)
    (hs : n ∈ soldTickets st.reg) :
    (vendidoRun st rango tu tn nums ts).reg.filter (fun r => r.imagen == n) =
      st.reg.filter (fun r => r.imagen == n) := by
  rw [vendidoRun_eq]
  show (st.reg ++ _).filter _ = _
  rw [List.filter_append]
  have hnil : (((vendidoClassify st.reg st.lotes rango tn nums).permitidos.map
      (saleRow tu tn)).filter (fun r => r.imagen == n)) = [] := by
    rw [List.filter_eq_nil_iff]
    intro r hr
    rw [List.mem_map] at hr
    obtain ⟨m, hm, rfl⟩ := hr
    have hns := (vendidoGo_mem_perm st.reg st.lotes rango tn _ _ m hm).2
    simp only [saleRow, beq_iff_eq]
    intro heq
    rw [heq] at hns
    exact hns hs
  rw [hnil, List.append_nil]

theorem handleRun_filter_of_sold (st : BotState) (uid : Int) (mi : String)
    (nums : List Int) (ts : String) (imgEx : Int → Bool) (n : Int)
    (hs : n ∈ soldTickets st.reg) :
    (handleRun st uid mi nums ts imgEx).reg.filter (fun r => r.imagen == n) =
      st.reg.filter (fun r => r.imagen == n) := by
  rw [handleRun_eq]
  show (st.reg ++ _).filter _ = _
  rw [List.filter_append]
  have hnil : ((((aEnviar st.reg uid (pedidoClassify st.lotes mi nums).permitidos).filter
      imgEx).map (saleRow uid mi)).filter (fun r => r.imagen == n)) = [] := by
    rw [List.filter_eq_nil_iff]
    intro r hr
    rw [List.mem_map] at hr
    obtain ⟨m, hm, rfl⟩ := hr
    have hm2 : m ∈ aEnviar st.reg uid (pedidoClassify st.lotes mi nums).permitidos :=
      (List.mem_filter.mp hm).1
    have hns := mem_aEnviar_not_sold st.reg uid _ m hm2
    simp only [saleRow, beq_iff_eq]
    intro heq
    rw [heq] at hns
    exact hns hs
  rw [hnil, List.append_nil]

theorem step_nodup {st st2 : BotState} (h : Step st st2) (hn : TicketsNodup st) :
    TicketsNodup st2 := by
  cases h with
  | vendido rango tu tn nums ts hnod =>
    rw [TicketsNodup, vendidoRun_eq]
    show (soldTickets (st.reg ++ _)).Nodup
    rw [soldTickets_append_sale, List.nodup_append]
    refine ⟨hn, ?_, ?_⟩
    · exact List.Sublist.nodup
        (vendidoGo_perm_sublist st.reg st.lotes rango tn _ (sortInts nums))
        (nodup_sortInts nums hnod)
    · intro a ha ha2
      exact (vendidoGo_mem_perm st.reg st.lotes rango tn _ _ a ha2).2 ha
  | pedido uid mi nums ts imgEx hnod =>
    rw [TicketsNodup, handleRun_eq]
    show (soldTickets (st.reg ++ _)).Nodup
    rw [soldTickets_append_sale, List.nodup_append]
    have hperm : (pedidoGo st.lotes mi (!(myLote st.lotes mi).isEmpty)
        (sortInts nums)).permitidos.Nodup :=
      List.Sublist.nodup (pedidoGo_perm_sublist st.lotes mi _ (sortInts nums))
        (nodup_sortInts nums hnod)
    refine ⟨hn, ?_, ?_⟩
    · exact List.Nodup.filter imgEx
        (List.Nodup.filter _ (nodup_sortInts _ hperm))
    · intro a ha ha2
      have ha3 : a ∈ aEnviar st.reg uid (pedidoClassify st.lotes mi nums).permitidos :=
        (List.mem_filter.mp ha2).1
      exact mem_aEnviar_not_sold st.reg uid _ a ha3 ha
  | remover uid un nums ts =>
    rw [TicketsNodup, removerRun_eq]
    show (soldTickets (st.reg.filter _)).Nodup
    unfold soldTickets
    unfold TicketsNodup soldTickets at hn
    exact List.Sublist.nodup
      (List.Sublist.map (fun r => r.imagen) (List.filter_sublist st.reg)) hn
  | lote name nums =>
    show TicketsNodup ⟨st.reg, st.devs, _⟩
    exact hn

theorem reachable_nodup (st : BotState) (h : Reachable st) : TicketsNodup st := by
  induction h with
  | refl => simp [TicketsNodup, soldTickets]
  | tail hsteps hstep ih => exact step_nodup hstep ih

theorem filter_imagen_nil_of_not_sold (reg : List RegRow) (n : Int)
    (hns : n ∉ soldTickets reg) :
    reg.filter (fun r => r.imagen == n) = [] := by
  rw [List.filter_eq_nil_iff]
  intro r hr
  simp only [beq_iff_eq]
  intro heq
  exact hns (by rw [← heq]; exact List.mem_map_of_mem (fun r => r.imagen) hr)

/-- No double-sell under serialized (uninterleaved) operation semantics.
(1) In every state reachable from the empty store
by the mutating operations, each ticket appears in at most one Sales row
(the ticket list is duplicate-free).  (2) A `/vendido` request for a
ticket already in the Sales table (and inside the defined range) is
classified as already sold and not permitted.  (3)(4) Neither `/vendido`
nor the `handle_message` sale path inserts any row for a ticket already
present: the rows for that ticket are exactly the ones already there.
(5) After two sell attempts for the same fresh ticket by two different
buyers, the Sales table contains exactly one row for that ticket. -/
theorem no_double_sell :
    (∀ st : BotState, Reachable st → TicketsNodup st) ∧
    (∀ (st : BotState) (rango : Option (Int × Int)) (tn : String) (n : Int),
      n ∈ soldTickets st.reg → rangePass rango n = true →
      n ∈ (vendidoClassify st.reg st.lotes rango tn [n]).ya_vendidos ∧
      n ∉ (vendidoClassify st.reg st.lotes rango tn [n]).permitidos) ∧
    (∀ (st : BotState) (rango : Option (Int × Int)) (tu : Int) (tn : String)
      (nums : List Int) (ts : String) (n : Int), n ∈ soldTickets st.reg →
      (vendidoRun st rango tu tn nums ts).reg.filter (fun r => r.imagen == n) =
        st.reg.filter (fun r => r.imagen == n)) ∧
    (∀ (st : BotState) (uid : Int) (mi : String) (nums : List Int) (ts : String)
      (imgEx : Int → Bool) (n : Int), n ∈ soldTickets st.reg →
      (handleRun st uid mi nums ts imgEx).reg.filter (fun r => r.imagen == n) =
        st.reg.filter (fun r => r.imagen == n)) ∧
    (∀ (st : BotState) (rango : Option (Int × Int)) (tu1 tu2 : Int)
      (tn1 tn2 : String) (ts1 ts2 : String) (n : Int),
      n ∉ soldTickets st.reg →
      n ∈ (vendidoClassify st.reg st.lotes rango tn1 [n]).permitidos →
      ((vendidoRun (vendidoRun st rango tu1 tn1 [n] ts1) rango tu2 tn2 [n]
          ts2).reg.filter (fun r => r.imagen == n)).length = 1) := by
  refine ⟨reachable_nodup, ?_, ?_, ?_, ?_⟩
  · intro st rango tn n hs hr
    constructor
    · exact vendidoGo_mem_ya st.reg st.lotes rango tn _ [n] n (by simp) hr hs
    · intro hmem
      exact (vendidoGo_mem_perm st.reg st.lotes rango tn _ _ n hmem).2 hs
  · intro st rango tu tn nums ts n hs
    exact vendidoRun_filter_of_sold st rango tu tn nums ts n hs
  · intro st uid mi nums ts imgEx n hs
    exact handleRun_filter_of_sold st uid mi nums ts imgEx n hs
  · intro st rango tu1 tu2 tn1 tn2 ts1 ts2 n hns hperm
    have hsub : (vendidoClassify st.reg st.lotes rango tn1 [n]).permitidos.Sublist [n] :=
      vendidoGo_perm_sublist st.reg st.lotes rango tn1 _ (sortInts [n])
    have hperm1 : (vendidoClassify st.reg st.lotes rango tn1 [n]).permitidos = [n] := by
      rcases List.sublist_singleton.mp hsub with h0 | h1
      · rw [h0] at hperm; simp at hperm
      · exact h1
    have hreg1 : (vendidoRun st rango tu1 tn1 [n] ts1).reg
        = st.reg ++ [n].map (saleRow tu1 tn1) := by
      rw [vendidoRun_eq]
      show st.reg ++ _ = _
      rw [hperm1]
    have hfil1 : (vendidoRun st rango tu1 tn1 [n] ts1).reg.filter
        (fun r => r.imagen == n) = [saleRow tu1 tn1 n] := by
      rw [hreg1, List.filter_append, filter_imagen_nil_of_not_sold st.reg n hns]
      simp [saleRow]
    have hsold1 : n ∈ soldTickets (vendidoRun st rango tu1 tn1 [n] ts1).reg := by
      rw [hreg1, soldTickets_append_sale]
      simp
    rw [vendidoRun_filter_of_sold _ rango tu2 tn2 [n] ts2 n hsold1, hfil1]
    rfl

/-- Instance of `no_double_sell`: selling ticket 5 to user "ana" (id 1)
and then attempting
to sell it to "luis" (id 2) on an initially empty store leaves exactly one
row for ticket 5. -/
theorem no_double_sell_witness :
    ((vendidoRun (vendidoRun ⟨[], [], []⟩ none 1 "ana" [5] "t1") none 2 "luis"
        [5] "t2").reg.filter (fun r => r.imagen == 5)).length = 1 :=
  no_double_sell.2.2.2.2 ⟨[], [], []⟩ none 1 2 "ana" "luis" "t1" "t2" 5
    (by decide) (by decide)

theorem handleRun_eq_phases (st : BotState) (uid : Int) (mi : String)
    (nums : List Int) (ts : String) (imgEx : Int → Bool) :
    handleRun st uid mi nums ts imgEx =
      handleInsert st uid mi (handleOkNums st uid mi nums imgEx) := by
  rw [handleRun_eq, handleInsert, handleOkNums]
  by_cases hc : ((aEnviar st.reg uid (pedidoClassify st.lotes mi nums).permitidos).filter
      imgEx).isEmpty = true
  · have hp : ((aEnviar st.reg uid (pedidoClassify st.lotes mi nums).permitidos).filter
        imgEx) = [] := by simpa using hc
    simp [hc, hp]
  · simp [hc]

/-- C3: the no-double-sell property fails in the program.  The sale path of
`handle_message` performs its sold-check and its row insert in two separate
`reg_lock` acquisitions with awaited sends in between, so two concurrent
number-request sales of ticket 5 — "ana" (id 1) and "luis" (id 2), both
sold-checks scheduled before either insert — both pass the check against
the empty table and both insert: the Sales table ends with two rows for
ticket 5 and a duplicated ticket list, where the claim requires the second
attempt to be rejected with exactly one row. -/
theorem handle_double_sell_interleaved :
    ((handleInsert
        (handleInsert ⟨[], [], []⟩ 1 "ana"
          (handleOkNums ⟨[], [], []⟩ 1 "ana" [5] (fun _ => true)))
        2 "luis"
        (handleOkNums ⟨[], [], []⟩ 2 "luis" [5] (fun _ => true))).reg.filter
      (fun r => r.imagen == 5)).length = 2 ∧
    ¬ TicketsNodup
      (handleInsert
        (handleInsert ⟨[], [], []⟩ 1 "ana"
          (handleOkNums ⟨[], [], []⟩ 1 "ana" [5] (fun _ => true)))
        2 "luis"
        (handleOkNums ⟨[], [], []⟩ 2 "luis" [5] (fun _ => true))) :=
  ⟨by rfl, by simp [TicketsNodup]; decide⟩

/-! ## Return round-trip (C5) -/

theorem not_sold_of_filter_nil (reg : List RegRow) (n : Int)
    (h : reg.filter (fun r => r.imagen == n) = []) : n ∉ soldTickets reg := by
  rw [List.filter_eq_nil_iff] at h
  intro hmem
  rw [soldTickets, List.mem_map] at hmem
  obtain ⟨r, hr, heq⟩ := hmem
  exact h r hr (by simp [heq])

theorem vendidoClassify_mem_perm_of (reg : List RegRow) (lotes : List LoteRow)
    (rango : Option (Int × Int)) (tn : String) (n : Int)
    (hr : rangePass rango n = true) (hs : n ∉ soldTickets reg)
    (hlo : lookupOwner lotes n = none) (hml : myLote lotes tn = []) :
    n ∈ (vendidoClassify reg lotes rango tn [n]).permitidos := by
  unfold vendidoClassify
  rw [hml]
  exact vendidoGo_mem_perm_of reg lotes rango tn (sortInts [n]) n
    (by simp [sortInts, insertSorted]) hr hs hlo

/-- C5: Return round-trip.  Selling a fresh ticket `n` to a registered user
`u` and then returning it through `remover_carton` leaves zero rows for
`n` in the Sales table (the Sale row is removed, not flagged in place),
exactly one row for `n` in the Returns table, and a subsequent sell of `n`
to any buyer with no conflicting assignment is permitted again. -/
theorem return_round_trip (st : BotState) (rango : Option (Int × Int))
    (u : Int) (uname fullName b2name : String) (n : Int) (ts1 ts2 : String)
    (h1 : n ∉ soldTickets st.reg)
    (h2 : ∀ d ∈ st.devs, d.imagen ≠ n)
    (hperm : n ∈ (vendidoClassify st.reg st.lotes rango uname [n]).permitidos)
    (hown : lookupOwner st.lotes n = none)
    (hb2 : myLote st.lotes b2name = []) :
    (removerRun (vendidoRun st rango u uname [n] ts1) u fullName [n] ts2).reg.filter
      (fun r => r.imagen == n) = [] ∧
    ((removerRun (vendidoRun st rango u uname [n] ts1) u fullName [n] ts2).devs.filter
      (fun d => d.imagen == n)).length = 1 ∧
    n ∈ (vendidoClassify
      (removerRun (vendidoRun st rango u uname [n] ts1) u fullName [n] ts2).reg
      (removerRun (vendidoRun st rango u uname [n] ts1) u fullName [n] ts2).lotes
      rango b2name [n]).permitidos := by
  have hsub : (vendidoClassify st.reg st.lotes rango uname [n]).permitidos.Sublist [n] :=
    vendidoGo_perm_sublist st.reg st.lotes rango uname _ (sortInts [n])
  have hperm1 : (vendidoClassify st.reg st.lotes rango uname [n]).permitidos = [n] := by
    rcases List.sublist_singleton.mp hsub with h0 | hone
    · rw [h0] at hperm; simp at hperm
    · exact hone
  have hst1 : vendidoRun st rango u uname [n] ts1 =
      { st with reg := st.reg ++ [saleRow u uname n] } := by
    rw [vendidoRun_eq, hperm1]
    rfl
  have hrange : rangePass rango n = true :=
    (vendidoGo_mem_perm st.reg st.lotes rango uname _ _ n hperm).1
  have hmatch : removerMatching (st.reg ++ [saleRow u uname n]) u [n]
      = [saleRow u uname n] := by
    rw [removerMatching, List.filter_append]
    have hleft : st.reg.filter (fun r => r.usuario_id == u && [n].contains r.imagen)
        = [] := by
      rw [List.filter_eq_nil_iff]
      intro r hr hand
      rw [Bool.and_eq_true] at hand
      have himg : r.imagen = n := by simpa using hand.2
      exact h1 (by rw [← himg]; exact List.mem_map_of_mem (fun x => x.imagen) hr)
    rw [hleft]
    simp [saleRow]
  have hreg2 : (removerRun (vendidoRun st rango u uname [n] ts1) u fullName [n] ts2).reg
      = (st.reg ++ [saleRow u uname n]).filter
          (fun r => !(r.usuario_id == u && [n].contains r.imagen)) := by
    rw [hst1, removerRun_eq]
  have hdevs2 : (removerRun (vendidoRun st rango u uname [n] ts1) u fullName [n] ts2).devs
      = st.devs ++ [DevRow.mk u uname n fullName ts2] := by
    rw [hst1, removerRun_eq]
    show st.devs ++ (removerMatching (st.reg ++ [saleRow u uname n]) u [n]).map _ = _
    rw [hmatch]
    rfl
  have hlotes2 : (removerRun (vendidoRun st rango u uname [n] ts1) u fullName [n]
      ts2).lotes = st.lotes := by
    rw [hst1, removerRun_eq]
  have hc1 : (removerRun (vendidoRun st rango u uname [n] ts1) u fullName [n]
      ts2).reg.filter (fun r => r.imagen == n) = [] := by
    rw [hreg2, List.filter_eq_nil_iff]
    intro r hr
    have hr1 := (List.mem_filter.mp hr).1
    have hr2 := (List.mem_filter.mp hr).2
    simp only [beq_iff_eq]
    intro himg
    rcases List.mem_append.mp hr1 with hra | hrb
    · exact h1 (by rw [← himg]; exact List.mem_map_of_mem (fun x => x.imagen) hra)
    · have hrs : r = saleRow u uname n := by simpa using hrb
      rw [hrs] at hr2
      simp [saleRow] at hr2
  refine ⟨hc1, ?_, ?_⟩
  · have hdevfil : st.devs.filter (fun d => d.imagen == n) = [] := by
      rw [List.filter_eq_nil_iff]
      intro d hd
      simp only [beq_iff_eq]
      exact h2 d hd
    rw [hdevs2, List.filter_append, hdevfil]
    simp
  · rw [hlotes2]
    refine vendidoClassify_mem_perm_of _ st.lotes rango b2name n hrange ?_ hown hb2
    exact not_sold_of_filter_nil _ n hc1

/-- Witness for C5: the spec example, ticket 42 sold to "ana" (id 1) and
returned, on an initially empty store; reselling to "luis" is permitted. -/
theorem return_round_trip_witness :
    (removerRun (vendidoRun ⟨[], [], []⟩ none 1 "ana" [42] "t1") 1 "Ana F" [42]
      "t2").reg.filter (fun r => r.imagen == 42) = [] ∧
    ((removerRun (vendidoRun ⟨[], [], []⟩ none 1 "ana" [42] "t1") 1 "Ana F" [42]
      "t2").devs.filter (fun d => d.imagen == 42)).length = 1 ∧
    42 ∈ (vendidoClassify
      (removerRun (vendidoRun ⟨[], [], []⟩ none 1 "ana" [42] "t1") 1 "Ana F" [42]
        "t2").reg
      (removerRun (vendidoRun ⟨[], [], []⟩ none 1 "ana" [42] "t1") 1 "Ana F" [42]
        "t2").lotes
      none "luis" [42]).permitidos :=
  return_round_trip ⟨[], [], []⟩ none 1 "ana" "Ana F" "luis" 42 "t1" "t2"
    (by decide) (by decide) (by decide) (by decide) (by decide)

/-! ## Reconciliation replay lemmas (C1) -/

theorem newSaleRows_congr : ∀ (vs : List LogEvent)
    (ex1 ex2 : List (Int × String × Int)),
    (∀ k, k ∈ ex1 ↔ k ∈ ex2) → newSaleRows vs ex1 = newSaleRows vs ex2 := by
  intro vs
  induction vs with
  | nil => intro ex1 ex2 _; rfl
  | cons v vs ih =>
    intro ex1 ex2 h
    by_cases hv : evKey v ∈ ex1
    · simp only [newSaleRows]
      rw [if_pos hv, if_pos ((h _).mp hv)]
      exact ih ex1 ex2 h
    · simp only [newSaleRows]
      rw [if_neg hv, if_neg (fun hx => hv ((h _).mpr hx))]
      congr 1
      apply ih
      intro k
      simp only [List.mem_cons]
      rw [h k]

theorem newSaleRows_fresh : ∀ (vs : List LogEvent)
    (ex : List (Int × String × Int)),
    (∀ v ∈ vs, evKey v ∉ ex) → (vs.map evKey).Nodup →
    newSaleRows vs ex = vs.map evRow := by
  intro vs
  induction vs with
  | nil => intro ex _ _; rfl
  | cons v vs ih =>
    intro ex hfr hnd
    simp only [List.map_cons, List.nodup_cons] at hnd
    simp only [newSaleRows]
    rw [if_neg (hfr v (List.mem_cons_self v vs))]
    simp only [List.map_cons]
    congr 1
    apply ih
    · intro w hw
      simp only [List.mem_cons]
      push_neg
      constructor
      · intro he
        exact hnd.1 (he ▸ List.mem_map_of_mem evKey hw)
      · exact hfr w (List.mem_cons_of_mem v hw)
    · exact hnd.2

theorem newSaleRows_present : ∀ (vs : List LogEvent)
    (ex : List (Int × String × Int)),
    (∀ v ∈ vs, evKey v ∈ ex) → newSaleRows vs ex = [] := by
  intro vs
  induction vs with
  | nil => intro ex _; rfl
  | cons v vs ih =>
    intro ex h
    simp only [newSaleRows]
    rw [if_pos (h v (List.mem_cons_self v vs))]
    exact ih ex fun w hw => h w (List.mem_cons_of_mem v hw)

theorem newSaleRows_skip : ∀ (vs : List LogEvent) (k : Int × String × Int)
    (ex : List (Int × String × Int)), k ∉ vs.map evKey →
    newSaleRows vs (k :: ex) = newSaleRows vs ex := by
  intro vs
  induction vs with
  | nil => intro k ex _; rfl
  | cons v vs ih =>
    intro k ex hk
    simp only [List.map_cons, List.mem_cons] at hk
    push_neg at hk
    have hne : evKey v ≠ k := fun h => hk.1 h.symm
    by_cases hv : evKey v ∈ ex
    · simp only [newSaleRows]
      rw [if_pos (List.mem_cons_of_mem k hv), if_pos hv]
      exact ih k ex hk.2
    · have hv2 : evKey v ∉ k :: ex := by
        simp only [List.mem_cons]
        push_neg
        exact ⟨hne, hv⟩
      simp only [newSaleRows]
      rw [if_neg hv2, if_neg hv]
      congr 1
      rw [newSaleRows_congr vs (evKey v :: k :: ex) (k :: evKey v :: ex)
        (by intro x; simp only [List.mem_cons]; tauto)]
      exact ih k (evKey v :: ex) hk.2

theorem newSaleRows_main : ∀ (events : List LogEvent) (K : Nat),
    (events.map evKey).Nodup →
    newSaleRows events ((events.take K).map evKey) = (events.drop K).map evRow := by
  intro events
  induction events with
  | nil => intro K _; simp [newSaleRows]
  | cons e es ih =>
    intro K hnd
    simp only [List.map_cons, List.nodup_cons] at hnd
    cases K with
    | zero =>
      simp only [List.take_zero, List.map_nil, List.drop_zero]
      exact newSaleRows_fresh (e :: es) [] (by simp)
        (by simp only [List.map_cons, List.nodup_cons]; exact hnd)
    | succ K =>
      simp only [List.take_succ_cons, List.map_cons, List.drop_succ_cons]
      simp only [newSaleRows]
      rw [if_pos (List.mem_cons_self _ _)]
      rw [newSaleRows_skip es (evKey e) _ hnd.1]
      exact ih K hnd.2

theorem reconcile_no_devol (vlines dlines : List String) (reg : List RegRow)
    (devs : List DevRow) (hd : collectEvents "devol" dlines = []) :
    reconcile_from_logs vlines dlines reg devs
      = (mergeVentas (collectEvents "venta" vlines) reg, devs) := by
  unfold reconcile_from_logs
  rw [hd]
  simp [devRowsOf]

theorem mergeVentas_take (events : List LogEvent) (K : Nat)
    (hkeys : (events.map evKey).Nodup) :
    mergeVentas events ((events.take K).map evRow) = events.map evRow := by
  unfold mergeVentas
  have hmm : ((events.take K).map evRow).map regKey = (events.take K).map evKey := by
    rw [List.map_map]
    rfl
  rw [hmm, newSaleRows_main events K hkeys, ← List.map_append,
    List.take_append_drop]

theorem mergeVentas_full (events : List LogEvent) :
    mergeVentas events (events.map evRow) = events.map evRow := by
  unfold mergeVentas
  have hmm : (events.map evRow).map regKey = events.map evKey := by
    rw [List.map_map]
    rfl
  rw [hmm, newSaleRows_present events _
    (fun v hv => List.mem_map_of_mem evKey hv), List.append_nil]

/-- C1: Reconciliation replay is idempotent.  For a ventas journal whose
parsed content is `N` sale events with pairwise distinct tickets, a
devoluciones journal with no replayable events, and a Sales snapshot
holding exactly the rows of the first `K < N` events, one run of the
reconciler produces the Sales table consisting of exactly the `N` events'
rows (hence exactly the `N` distinct tickets) with the Returns table
untouched, and a second run on the result changes nothing. -/
theorem reconcile_replay_idempotent (vlines dlines : List String)
    (events : List LogEvent) (K : Nat) (devs0 : List DevRow)
    (hv : collectEvents "venta" vlines = events)
    (hd : collectEvents "devol" dlines = [])
    (hnodup : (events.map fun e => e.imagen).Nodup)
    (hK : K < events.length) :
    reconcile_from_logs vlines dlines ((events.take K).map evRow) devs0
      = (events.map evRow, devs0) ∧
    reconcile_from_logs vlines dlines (events.map evRow) devs0
      = (events.map evRow, devs0) := by
  have hkeys : (events.map evKey).Nodup := by
    have h : events.map (fun e => e.imagen) = (events.map evKey).map (fun k => k.2.2) := by
      rw [List.map_map]
      rfl
    rw [h] at hnodup
    exact List.Nodup.of_map _ hnodup
  constructor
  · rw [reconcile_no_devol vlines dlines _ devs0 hd, hv,
      mergeVentas_take events K hkeys]
  · rw [reconcile_no_devol vlines dlines _ devs0 hd, hv, mergeVentas_full events]

/-- Witness for C1: a two-event ventas journal replayed against a snapshot
holding only the first event. -/
theorem reconcile_replay_idempotent_witness :
    reconcile_from_logs ["venta;1;ana;10;t1", "venta;2;luis;11;t2"] []
      ((([⟨"venta", 1, "ana", 10, "t1", ""⟩,
          ⟨"venta", 2, "luis", 11, "t2", ""⟩] : List LogEvent).take 1).map evRow) []
      = (([⟨"venta", 1, "ana", 10, "t1", ""⟩,
          ⟨"venta", 2, "luis", 11, "t2", ""⟩] : List LogEvent).map evRow, []) :=
  (reconcile_replay_idempotent ["venta;1;ana;10;t1", "venta;2;luis;11;t2"] []
    [⟨"venta", 1, "ana", 10, "t1", ""⟩, ⟨"venta", 2, "luis", 11, "t2", ""⟩] 1 []
    (by rfl) (by rfl) (by decide) (by decide)).1

/-! ## Malformed-line tolerance (C6) -/

theorem collectEvents_skip (tipo : String) (xs ys : List String) (l : String)
    (hbad : parse_log_line l = none) :
    collectEvents tipo (xs ++ l :: ys) = collectEvents tipo (xs ++ ys) := by
  have hnone : (if String.mk (pyStrip l.data) = "" then none
      else match parse_log_line l with
        | some e => if e.tipo = tipo then some e else none
        | none => none) = (none : Option LogEvent) := by
    by_cases hb : String.mk (pyStrip l.data) = ""
    · simp [hb]
    · simp [hb, hbad]
  unfold collectEvents
  simp only [List.filterMap_append, List.filterMap_cons, hnone]

/-- Counterexample for C6: on a journal holding one well-formed sale line and
one malformed three-field line the reconciler applies the well-formed line
and skips the malformed one, but it emits no log message at all — no count
of skipped lines is reported anywhere in `reconcile_from_logs_sync` (its
only messages are the three snapshot-write failure warnings, silent here
because the writes succeed). -/
theorem skipped_count_not_reported :
    (reconcile_from_logs ["venta;1;ana;3;t", "a;b;c"] [] [] []).1
      = [⟨1, "ana", 3, ""⟩] ∧
    reconcile_warnings ["venta;1;ana;3;t", "a;b;c"] [] [] true true true = [] :=
  ⟨by rfl, by rfl⟩

/-- C6 (amended): Malformed-line tolerance without reporting.  Every journal
line that fails to parse — fewer than five `;`-separated fields, an
unrecognized event type, or non-integer id/ticket fields — is skipped:
removing it from either journal file leaves the reconciler's entire result
unchanged, so all well-formed lines of the same file are still applied and
startup never aborts; however no count of skipped lines is reported. -/
theorem malformed_line_tolerance (xs ys other : List String) (l : String)
    (reg : List RegRow) (devs : List DevRow)
    (hbad : parse_log_line l = none) :
    reconcile_from_logs (xs ++ l :: ys) other reg devs
      = reconcile_from_logs (xs ++ ys) other reg devs ∧
    reconcile_from_logs other (xs ++ l :: ys) reg devs
      = reconcile_from_logs other (xs ++ ys) reg devs := by
  constructor
  · unfold reconcile_from_logs
    rw [collectEvents_skip "venta" xs ys l hbad]
  · unfold reconcile_from_logs
    rw [collectEvents_skip "devol" xs ys l hbad]

/-- Witness for C6: dropping the malformed three-field line from the spec's
example journal does not change the reconciliation result. -/
theorem malformed_line_tolerance_witness :
    reconcile_from_logs (["venta;1;ana;3;t"] ++ "a;b;c" :: []) [] [] []
      = reconcile_from_logs (["venta;1;ana;3;t"] ++ []) [] [] [] ∧
    reconcile_from_logs [] (["venta;1;ana;3;t"] ++ "a;b;c" :: []) [] []
      = reconcile_from_logs [] (["venta;1;ana;3;t"] ++ []) [] [] :=
  malformed_line_tolerance ["venta;1;ana;3;t"] [] [] "a;b;c" [] [] (by rfl)

/-! ## Snapshot rename-retry discipline (C7) -/

theorem awcAux_tmps {α : Type} (wOk rOk remOk : Nat → Bool) (df : α) (base : Nat) :
    ∀ (rem i : Nat) (fs : FsState α), fs.tmps = [] → (∀ j, remOk j = true) →
      (awcAux wOk rOk remOk df base i rem fs).1.tmps = [] := by
  intro rem
  induction rem with
  | zero => intro i fs h0 _; simpa [awcAux] using h0
  | succ rem ih =>
    intro i fs h0 hall
    by_cases hw : wOk i
    · by_cases hr : rOk i
      · simp [awcAux, hw, hr, h0]
      · simp only [awcAux, hw, hr, hall i, if_true, if_false]
        exact ih (i + 1) _ (by simp [h0]) hall
    · simp [awcAux, hw, hall i, h0]

theorem awcAux_renameFail_removeAttempt {α : Type} (wOk rOk remOk : Nat → Bool)
    (df : α) (base : Nat) :
    ∀ (rem i : Nat) (fs : FsState α) (j : Nat),
      FsOp.renameFail j ∈ (awcAux wOk rOk remOk df base i rem fs).2.1 →
      FsOp.removeTmp j ∈ (awcAux wOk rOk remOk df base i rem fs).2.1 ∨
        FsOp.removeFailed j ∈ (awcAux wOk rOk remOk df base i rem fs).2.1 := by
  intro rem
  induction rem with
  | zero => intro i fs j h; simp [awcAux] at h
  | succ rem ih =>
    intro i fs j h
    by_cases hw : wOk i
    · by_cases hr : rOk i
      · simp [awcAux, hw, hr] at h
      · by_cases hrm : remOk i
        · simp only [awcAux, hw, hr, hrm, if_true, if_false] at h ⊢
          simp at h ⊢
          rcases h with rfl | h
          · exact Or.inl (Or.inl rfl)
          · rcases ih (i + 1) _ j h with h2 | h2
            · exact Or.inl (Or.inr h2)
            · exact Or.inr h2
        · simp only [awcAux, hw, hr, hrm, if_true, if_false] at h ⊢
          simp at h ⊢
          rcases h with rfl | h
          · exact Or.inr (Or.inl rfl)
          · rcases ih (i + 1) _ j h with h2 | h2
            · exact Or.inl h2
            · exact Or.inr (Or.inr h2)
    · by_cases hrm : remOk i <;> simp [awcAux, hw, hrm] at h

theorem awcAux_renameFail_removeTmp {α : Type} (wOk rOk remOk : Nat → Bool)
    (df : α) (base : Nat) :
    ∀ (rem i : Nat) (fs : FsState α) (j : Nat),
      FsOp.renameFail j ∈ (awcAux wOk rOk remOk df base i rem fs).2.1 →
      remOk j = true →
      FsOp.removeTmp j ∈ (awcAux wOk rOk remOk df base i rem fs).2.1 := by
  intro rem
  induction rem with
  | zero => intro i fs j h; simp [awcAux] at h
  | succ rem ih =>
    intro i fs j h hro
    by_cases hw : wOk i
    · by_cases hr : rOk i
      · simp [awcAux, hw, hr] at h
      · by_cases hrm : remOk i
        · simp only [awcAux, hw, hr, hrm, if_true, if_false] at h ⊢
          simp at h ⊢
          rcases h with rfl | h
          · exact Or.inl rfl
          · exact Or.inr (ih (i + 1) _ j h hro)
        · simp only [awcAux, hw, hr, hrm, if_true, if_false] at h ⊢
          simp at h ⊢
          rcases h with rfl | h
          · exact absurd hro (by simp [hrm])
          · exact ih (i + 1) _ j h hro
    · by_cases hrm : remOk i <;> simp [awcAux, hw, hrm] at h

theorem awcAux_mkTmp_prev {α : Type} (wOk rOk remOk : Nat → Bool) (df : α)
    (base : Nat) :
    ∀ (rem i : Nat) (fs : FsState α) (m : Nat),
      FsOp.mkTmp m ∈ (awcAux wOk rOk remOk df base i rem fs).2.1 →
      m = i ∨ FsOp.renameFail (m - 1) ∈ (awcAux wOk rOk remOk df base i rem fs).2.1 := by
  intro rem
  induction rem with
  | zero => intro i fs m h; simp [awcAux] at h
  | succ rem ih =>
    intro i fs m h
    by_cases hw : wOk i
    · by_cases hr : rOk i
      · simp [awcAux, hw, hr] at h
        exact Or.inl h
      · by_cases hrm : remOk i <;>
        · simp only [awcAux, hw, hr, hrm, if_true, if_false] at h ⊢
          simp at h ⊢
          rcases h with rfl | h
          · exact Or.inl rfl
          · rcases ih (i + 1) _ m h with rfl | h2
            · right; left; omega
            · right; right; exact h2
    · by_cases hrm : remOk i <;>
      · simp [awcAux, hw, hrm] at h
        exact Or.inl h

theorem mem_fsSleeps (tr : List FsOp) (d : Nat) :
    d ∈ fsSleeps tr ↔ FsOp.sleepMs d ∈ tr := by
  unfold fsSleeps
  rw [List.mem_filterMap]
  constructor
  · rintro ⟨op, hop, heq⟩
    cases op with
    | sleepMs ms =>
      simp only [Option.some.injEq] at heq
      rw [← heq]
      exact hop
    | mkTmp i => simp at heq
    | serializeOk i => simp at heq
    | serializeFail i => simp at heq
    | renameOk i => simp at heq
    | renameFail i => simp at heq
    | removeTmp i => simp at heq
    | removeFailed i => simp at heq
  · intro h
    exact ⟨FsOp.sleepMs d, h, rfl⟩

theorem mem_renameFailIdxs (tr : List FsOp) (j : Nat) :
    j ∈ renameFailIdxs tr ↔ FsOp.renameFail j ∈ tr := by
  unfold renameFailIdxs
  rw [List.mem_filterMap]
  constructor
  · rintro ⟨op, hop, heq⟩
    cases op with
    | renameFail i =>
      simp only [Option.some.injEq] at heq
      rw [← heq]
      exact hop
    | mkTmp i => simp at heq
    | serializeOk i => simp at heq
    | serializeFail i => simp at heq
    | renameOk i => simp at heq
    | sleepMs ms => simp at heq
    | removeTmp i => simp at heq
    | removeFailed i => simp at heq
  · intro h
    exact ⟨FsOp.renameFail j, h, rfl⟩

/-- Counterexample for C7: with the target locked during the first rename
attempt only (and the temp-file deletions succeeding), `atomic_write_csv`
does not retry the rename step alone — the first temporary file is deleted
before the retry (while retries are not exhausted and before any
successful rename), and the whole table is serialized a second time into a
fresh temporary file. -/
theorem rename_retry_counterexample :
    (atomic_write_csv (fun _ => true) (fun i => i != 0) (fun _ => true) (1 : Nat)
        6 250 ⟨some 0, []⟩).2.1
      = [.mkTmp 0, .serializeOk 0, .renameFail 0, .sleepMs 250, .removeTmp 0,
         .mkTmp 1, .serializeOk 1, .renameOk 1] ∧
    countSerializeOk (atomic_write_csv (fun _ => true) (fun i => i != 0)
        (fun _ => true) (1 : Nat) 6 250 ⟨some 0, []⟩).2.1 = 2 ∧
    List.indexOf (FsOp.removeTmp 0)
        (atomic_write_csv (fun _ => true) (fun i => i != 0) (fun _ => true) (1 : Nat)
          6 250 ⟨some 0, []⟩).2.1 <
      List.indexOf (FsOp.renameOk 1)
        (atomic_write_csv (fun _ => true) (fun i => i != 0) (fun _ => true) (1 : Nat)
          6 250 ⟨some 0, []⟩).2.1 :=
  ⟨by rfl, by rfl, by decide⟩

/-- C7 (amended): Snapshot retry discipline as implemented.  When a rename
attempt fails, the already-serialized temporary file is not kept available
for the retry: that attempt's `finally` block immediately attempts to
delete it — a best-effort `os.remove` whose own failure is swallowed by
`except Exception: pass` — and the next attempt re-creates and
re-serializes a whole new temporary file, so the entire write is retried
with linear backoff, not the rename step alone.  A temporary file is
consumed by its successful rename or deleted by its attempt's best-effort
deletion; only a failed deletion can leave one behind, so when every
deletion succeeds no temporary file survives the call. -/
theorem rename_retry_discipline {α : Type} (wOk rOk remOk : Nat → Bool) (df : α)
    (retries base : Nat) (fs : FsState α) (h0 : fs.tmps = []) :
    ((∀ j, remOk j = true) →
      (atomic_write_csv wOk rOk remOk df retries base fs).1.tmps = []) ∧
    (∀ j, FsOp.renameFail j ∈ (atomic_write_csv wOk rOk remOk df retries base fs).2.1 →
      FsOp.removeTmp j ∈ (atomic_write_csv wOk rOk remOk df retries base fs).2.1 ∨
        FsOp.removeFailed j ∈ (atomic_write_csv wOk rOk remOk df retries base fs).2.1) ∧
    (∀ j, FsOp.renameFail j ∈ (atomic_write_csv wOk rOk remOk df retries base fs).2.1 →
      remOk j = true →
      FsOp.removeTmp j ∈ (atomic_write_csv wOk rOk remOk df retries base fs).2.1) ∧
    (∀ m, FsOp.mkTmp (m + 1) ∈ (atomic_write_csv wOk rOk remOk df retries base fs).2.1 →
      FsOp.renameFail m ∈ (atomic_write_csv wOk rOk remOk df retries base fs).2.1) ∧
    (∀ d, FsOp.sleepMs d ∈ (atomic_write_csv wOk rOk remOk df retries base fs).2.1 →
      ∃ j, FsOp.renameFail j ∈ (atomic_write_csv wOk rOk remOk df retries base fs).2.1 ∧
        d = base * (j + 1)) := by
  unfold atomic_write_csv
  by_cases hz : retries = 0
  · simp [hz, h0]
  · simp only [hz, if_false]
    refine ⟨fun hall => awcAux_tmps wOk rOk remOk df base retries 0 fs h0 hall,
      fun j => awcAux_renameFail_removeAttempt wOk rOk remOk df base retries 0 fs j,
      fun j => awcAux_renameFail_removeTmp wOk rOk remOk df base retries 0 fs j,
      fun m hm => ?_, fun d hd => ?_⟩
    · rcases awcAux_mkTmp_prev wOk rOk remOk df base retries 0 fs (m + 1) hm with h | h
      · exact absurd h (by omega)
      · simpa using h
    · have hd2 : d ∈ fsSleeps (awcAux wOk rOk remOk df base 0 retries fs).2.1 :=
        (mem_fsSleeps _ _).mpr hd
      rw [awcAux_sleeps] at hd2
      rw [List.mem_map] at hd2
      obtain ⟨j, hj, heq⟩ := hd2
      exact ⟨j, (mem_renameFailIdxs _ _).mp hj, heq.symm⟩

/-- Witness for C7 (amended), at the counterexample's oracle with all
deletions succeeding: no temporary file survives, and the failed first
rename's temporary was removed before the retry. -/
theorem rename_retry_discipline_witness :
    (atomic_write_csv (fun _ => true) (fun i => i != 0) (fun _ => true) (1 : Nat)
        6 250 ⟨some 0, []⟩).1.tmps = [] ∧
    FsOp.removeTmp 0 ∈ (atomic_write_csv (fun _ => true) (fun i => i != 0)
        (fun _ => true) (1 : Nat) 6 250 ⟨some 0, []⟩).2.1 :=
  ⟨(rename_retry_discipline (fun _ => true) (fun i => i != 0) (fun _ => true)
      1 6 250 ⟨some 0, []⟩ rfl).1 (fun _ => rfl),
   (rename_retry_discipline (fun _ => true) (fun i => i != 0) (fun _ => true)
      1 6 250 ⟨some 0, []⟩ rfl).2.2.1 0 (by decide) (by rfl)⟩

/-! ## The two number parsers (C10) -/

theorem isPyDigit_not_space {c : Char} (h : isPyDigit c = true) :
    isPySpace c = false := by
  by_contra hs
  rw [Bool.not_eq_false] at hs
  unfold isPySpace at hs
  simp only [Bool.or_eq_true, decide_eq_true_eq] at hs
  rcases hs with ((((rfl | rfl) | rfl) | rfl) | rfl) | rfl <;>
    exact absurd h (by decide)

theorem isPyDigit_not_comma {c : Char} (h : isPyDigit c = true) :
    isComma c = false := by
  by_contra hs
  rw [Bool.not_eq_false] at hs
  unfold isComma at hs
  simp only [decide_eq_true_eq] at hs
  subst hs
  exact absurd h (by decide)

theorem pyStrip_eq_self (cs : List Char) (h : ∀ c ∈ cs, isPySpace c = false) :
    pyStrip cs = cs := by
  unfold pyStrip
  rw [dropWhile_eq_self_of_forall isPySpace cs h,
    dropWhile_eq_self_of_forall isPySpace cs.reverse
      (fun c hc => h c (List.mem_reverse.mp hc)),
    List.reverse_reverse]

theorem stripCommas_eq_self (cs : List Char) (h : ∀ c ∈ cs, isComma c = false) :
    stripCommas cs = cs := by
  unfold stripCommas
  rw [dropWhile_eq_self_of_forall isComma cs h,
    dropWhile_eq_self_of_forall isComma cs.reverse
      (fun c hc => h c (List.mem_reverse.mp hc)),
    List.reverse_reverse]

theorem p0Range?_digits_none (cs : List Char)
    (h : ∀ c ∈ cs, isPyDigit c = true) : p0Range? cs = none := by
  simp only [p0Range?]
  rw [dropWhile_eq_nil_of_forall isPyDigit cs h]
  rfl

theorem bnRange?_digits_none (cs : List Char)
    (h : ∀ c ∈ cs, isPyDigit c = true) : bnRange? cs = none := by
  simp only [bnRange?]
  rw [dropWhile_eq_self_of_forall isPySpace cs
    (fun c hc => isPyDigit_not_space (h c hc))]
  rw [dropWhile_eq_nil_of_forall isPyDigit cs h]
  rfl

theorem p0Range?_some {cs : List Char} {a b : Int}
    (h : p0Range? cs = some (a, b)) :
    ∃ as bs : List Char, cs = as ++ '-' :: bs ∧ as ≠ [] ∧ bs ≠ [] ∧
      (∀ c ∈ as, isPyDigit c = true) ∧ (∀ c ∈ bs, isPyDigit c = true) ∧
      a = (digitsVal as : Int) ∧ b = (digitsVal bs : Int) := by
  simp only [p0Range?] at h
  rcases hdrop : cs.dropWhile isPyDigit with _ | ⟨c, rest2⟩ <;> rw [hdrop] at h
  · simp at h
  · rw [List.head?_cons, List.tail_cons] at h
    by_cases hc : c = '-'
    · subst hc
      rw [if_pos rfl] at h
      by_cases hcond : (!(cs.takeWhile isPyDigit).isEmpty &&
          !(rest2.takeWhile isPyDigit).isEmpty &&
          (rest2.dropWhile isPyDigit).isEmpty) = true
      · rw [if_pos hcond] at h
        simp only [Option.some.injEq, Prod.mk.injEq] at h
        simp only [Bool.and_eq_true, Bool.not_eq_true'] at hcond
        have hrest2 : rest2 = rest2.takeWhile isPyDigit := by
          conv_lhs => rw [← List.takeWhile_append_dropWhile isPyDigit rest2]
          rw [List.isEmpty_iff.mp hcond.2, List.append_nil]
        refine ⟨cs.takeWhile isPyDigit, rest2.takeWhile isPyDigit, ?_, ?_, ?_, ?_, ?_,
          h.1.symm, h.2.symm⟩
        · conv_lhs => rw [← List.takeWhile_append_dropWhile isPyDigit cs]
          rw [hdrop, ← hrest2]
        · intro he
          rw [he] at hcond
          simp at hcond
        · intro he
          rw [he] at hcond
          simp at hcond
        · exact fun c hc => List.mem_takeWhile_imp hc
        · exact fun c hc => List.mem_takeWhile_imp hc
      · rw [if_neg hcond] at h
        simp at h
    · rw [if_neg (by simp [hc])] at h
      simp at h

theorem bnRange?_of_shape (as bs : List Char) (ha : as ≠ []) (hb : bs ≠ [])
    (hda : ∀ c ∈ as, isPyDigit c = true) (hdb : ∀ c ∈ bs, isPyDigit c = true) :
    bnRange? (as ++ '-' :: bs) = some ((digitsVal as : Int), (digitsVal bs : Int)) := by
  have hnos : ∀ c ∈ as ++ '-' :: bs, isPySpace c = false := by
    intro c hc
    rcases List.mem_append.mp hc with h | h
    · exact isPyDigit_not_space (hda c h)
    · rcases List.mem_cons.mp h with rfl | h
      · decide
      · exact isPyDigit_not_space (hdb c h)
  simp only [bnRange?]
  rw [dropWhile_eq_self_of_forall isPySpace _ hnos]
  rw [takeWhile_middle isPyDigit as '-' bs hda (by decide)]
  rw [dropWhile_middle isPyDigit as '-' bs hda (by decide)]
  rw [dropWhile_eq_self_of_forall isPySpace ('-' :: bs)
    (fun c hc => hnos c (List.mem_append.mpr (Or.inr hc)))]
  rw [List.head?_cons, List.tail_cons, if_pos rfl]
  rw [dropWhile_eq_self_of_forall isPySpace bs
    (fun c hc => isPyDigit_not_space (hdb c hc))]
  rw [takeWhile_eq_self_of_forall isPyDigit bs hdb,
    dropWhile_eq_nil_of_forall isPyDigit bs hdb]
  have hea : as.isEmpty = false := by
    cases as
    · exact absurd rfl ha
    · rfl
  have heb : bs.isEmpty = false := by
    cases bs
    · exact absurd rfl hb
    · rfl
  simp [hea, heb]

/-- A token the two parsers are expected to agree on: a pure digit string or
a well-formed ascending range `a-b` in the sense of part_000's regex. -/
def goodTok (t : String) : Bool :=
  allDigits t.data ||
    (match p0Range? t.data with
     | some (a, b) => decide (a ≤ b)
     | none => false)

theorem equiv_insertNum (n : Int) (acc1 acc2 : List Int)
    (h : ∀ m, m ∈ acc1 ↔ m ∈ acc2) :
    ∀ m, m ∈ insertNum n acc1 ↔ m ∈ insertNum n acc2 := by
  intro m
  rw [mem_insertNum, mem_insertNum, h m]

theorem equiv_insertAll (ns : List Int) (acc1 acc2 : List Int)
    (h : ∀ m, m ∈ acc1 ↔ m ∈ acc2) :
    ∀ m, m ∈ insertAll ns acc1 ↔ m ∈ insertAll ns acc2 := by
  intro m
  rw [mem_insertAll, mem_insertAll, h m]

theorem parseGo_nube_equiv : ∀ (tokens : List String) (acc1 acc2 : List Int),
    (∀ t ∈ tokens, goodTok t = true) → (∀ m, m ∈ acc1 ↔ m ∈ acc2) →
    ∃ r, parseGo tokens acc1 = some r ∧
      ∀ m, m ∈ r ↔ m ∈ parseNubeGo tokens acc2 := by
  intro tokens
  induction tokens with
  | nil =>
    intro acc1 acc2 _ hacc
    exact ⟨acc1, rfl, fun m => by simpa [parseNubeGo] using hacc m⟩
  | cons t ts ih =>
    intro acc1 acc2 hgood hacc
    have hgt := hgood t (List.mem_cons_self t ts)
    have htail : ∀ x ∈ ts, goodTok x = true :=
      fun x hx => hgood x (List.mem_cons_of_mem t hx)
    rw [goodTok, Bool.or_eq_true] at hgt
    rcases hgt with hdig | hrng
    · -- pure digit token
      have hall : ∀ c ∈ t.data, isPyDigit c = true := by
        rw [allDigits, Bool.and_eq_true] at hdig
        have := hdig.2
        rw [List.all_eq_true] at this
        exact this
      have hie : t.data.isEmpty = false := by
        rw [allDigits, Bool.and_eq_true] at hdig
        have := hdig.1
        rwa [Bool.not_eq_true'] at this
      have hp0 : p0Range? t.data = none := p0Range?_digits_none _ hall
      have hstrip : stripCommas (pyStrip t.data) = t.data := by
        rw [pyStrip_eq_self _ (fun c hc => isPyDigit_not_space (hall c hc)),
          stripCommas_eq_self _ (fun c hc => isPyDigit_not_comma (hall c hc))]
      have hbn : bnRange? t.data = none := bnRange?_digits_none _ hall
      have hp0eq : parseGo (t :: ts) acc1
          = parseGo ts (insertNum (digitsVal t.data : Int) acc1) := by
        simp only [parseGo, hp0, hdig, if_true]
      have hbneq : parseNubeGo (t :: ts) acc2
          = parseNubeGo ts (insertNum (digitsVal t.data : Int) acc2) := by
        simp only [parseNubeGo, hstrip, hie, hbn, hdig, if_true, Bool.false_eq_true,
          if_false]
      obtain ⟨r, hr1, hr2⟩ := ih (insertNum (digitsVal t.data : Int) acc1)
        (insertNum (digitsVal t.data : Int) acc2) htail
        (equiv_insertNum _ _ _ hacc)
      refine ⟨r, by rw [hp0eq]; exact hr1, fun m => ?_⟩
      rw [hbneq]
      exact hr2 m
    · -- well-formed ascending range token
      rcases hp : p0Range? t.data with _ | ⟨a, b⟩
      · rw [hp] at hrng
        simp at hrng
      · rw [hp] at hrng
        have hab : a ≤ b := of_decide_eq_true hrng
        obtain ⟨as, bs, hshape, ha, hb, hda, hdb, rfl, rfl⟩ := p0Range?_some hp
        have hnos : ∀ c ∈ t.data, isPySpace c = false := by
          rw [hshape]
          intro c hc
          rcases List.mem_append.mp hc with h | h
          · exact isPyDigit_not_space (hda c h)
          · rcases List.mem_cons.mp h with rfl | h
            · decide
            · exact isPyDigit_not_space (hdb c h)
        have hnoc : ∀ c ∈ t.data, isComma c = false := by
          rw [hshape]
          intro c hc
          rcases List.mem_append.mp hc with h | h
          · exact isPyDigit_not_comma (hda c h)
          · rcases List.mem_cons.mp h with rfl | h
            · decide
            · exact isPyDigit_not_comma (hdb c h)
        have hstrip : stripCommas (pyStrip t.data) = t.data := by
          rw [pyStrip_eq_self _ hnos, stripCommas_eq_self _ hnoc]
        have hie : t.data.isEmpty = false := by
          rw [hshape]
          cases as <;> rfl
        have hbn : bnRange? t.data
            = some ((digitsVal as : Int), (digitsVal bs : Int)) := by
          rw [hshape]
          exact bnRange?_of_shape as bs ha hb hda hdb
        have hp0eq : parseGo (t :: ts) acc1
            = parseGo ts (insertAll (rangeList (digitsVal as : Int)
                (digitsVal bs : Int)) acc1) := by
          simp only [parseGo, hp, hab, if_true]
        have hbneq : parseNubeGo (t :: ts) acc2
            = parseNubeGo ts (insertAll (rangeList (digitsVal as : Int)
                (digitsVal bs : Int)) acc2) := by
          simp only [parseNubeGo, hstrip, hie, hbn, hab, if_true, Bool.false_eq_true,
            if_false]
        obtain ⟨r, hr1, hr2⟩ := ih _ _ htail (equiv_insertAll _ _ _ hacc)
        refine ⟨r, by rw [hp0eq]; exact hr1, fun m => ?_⟩
        rw [hbneq]
        exact hr2 m

/-- Counterexample for C10: on the descending range token "9-5" part_000's
parser accepts the token but contributes no numbers (the whole call yields
the empty set) while bot_nube's parser expands the descending range to
5..9; on the non-numeric token "abc" part_000 rejects the entire input
while bot_nube returns the empty set.  The two parsers are therefore not
equivalent, disagreeing exactly on descending ranges and non-digit
tokens. -/
theorem parsers_not_equivalent :
    parse_numeros ["9-5"] = some [] ∧
    parse_numeros_nube ["9-5"] = [5, 6, 7, 8, 9] ∧
    parse_numeros ["abc"] = none ∧
    parse_numeros_nube ["abc"] = [] :=
  ⟨by rfl, by rfl, by rfl, by rfl⟩

/-- C10 (amended): the two `parse_numeros` implementations agree on every
token list made only of pure digit tokens and ascending digit ranges
`a-b` (a ≤ b): part_000's parser accepts, and the two results denote the
same set of ticket numbers.  (On descending ranges and on tokens with
non-digit characters they differ — see the counterexample.) -/
theorem parsers_agree_on_plain_tokens (tokens : List String)
    (h : ∀ t ∈ tokens, goodTok t = true) :
    ∃ r, parse_numeros tokens = some r ∧
      ∀ m, m ∈ r ↔ m ∈ parse_numeros_nube tokens := by
  obtain ⟨r, h1, h2⟩ := parseGo_nube_equiv tokens [] [] h (fun m => Iff.rfl)
  refine ⟨r, h1, fun m => ?_⟩
  rw [h2 m]
  show _ ↔ m ∈ sortInts (parseNubeGo tokens [])
  exact (mem_sortInts m _).symm

/-- Witness for C10 (amended): the token list ["1-3", "7"]. -/
theorem parsers_agree_on_plain_tokens_witness :
    ∃ r, parse_numeros ["1-3", "7"] = some r ∧
      ∀ m, m ∈ r ↔ m ∈ parse_numeros_nube ["1-3", "7"] :=
  parsers_agree_on_plain_tokens ["1-3", "7"] (by decide)

end Bingo
